import Mathlib

/-!
feeds-aggregator: text extraction and summary prompt

A shallow embedding of `internal/html/text_extractor.go`,
`internal/prompt/summary_prompt.go` and the prompt-building part of
`internal/activity/create_summary.go`, with the properties the specification
states about them.

Go strings are byte sequences: `len` counts bytes and `s[:n]` slices bytes, so
strings are modelled as lists of bytes.  The standard-library functions the
code calls (`strings.TrimSpace`, `strings.Fields`, `strings.Join`,
`regexp.ReplaceAllString` for the one pattern used) are modelled on bytes from
their documented behaviour; the markup parser `html.Parse` is a parameter.
-/

namespace FeedsAggregator

/-! ## Strings -/

/-- A Go `string`: an immutable sequence of bytes. -/
abbrev GoString := List UInt8

/-- The bytes (UTF-8) of a string literal of the source. -/
def lit (s : String) : GoString := s.toList.flatMap String.utf8EncodeChar

/-- The runes for which Go's `unicode.IsSpace` holds: the Latin-1 spaces
`\t \n \v \f \r`, space, U+0085, U+00A0, and the `White_Space` range table
(U+1680, U+2000..U+200A, U+2028, U+2029, U+202F, U+205F, U+3000). -/
def spaceRunes : List Char :=
  ['\t', '\n', '\x0b', '\x0c', '\r', ' ', '\u0085', '\u00a0', '\u1680',
   '\u2000', '\u2001', '\u2002', '\u2003', '\u2004', '\u2005', '\u2006',
   '\u2007', '\u2008', '\u2009', '\u200a', '\u2028', '\u2029', '\u202f',
   '\u205f', '\u3000']

/-- The UTF-8 encodings of the white-space runes.  A rune decoded from a Go
string is white space exactly when the bytes decoded are one of these. -/
def spaceEncodings : List GoString := spaceRunes.map String.utf8EncodeChar

/-- The white-space encoding the string starts with, if any. -/
def leadingSpace (s : GoString) : Option GoString :=
  spaceEncodings.find? (fun e => e.isPrefixOf s)

/-- The white-space encoding the string ends with, if any. -/
def trailingSpace (s : GoString) : Option GoString :=
  spaceEncodings.find? (fun e => e.isSuffixOf s)

/-- Drop leading white-space runes, at most `fuel` of them. -/
def trimLeftAux : Nat → GoString → GoString
  | 0, s => s
  | fuel + 1, s =>
    match leadingSpace s with
    | some e => trimLeftAux fuel (s.drop e.length)
    | none => s

/-- Drop trailing white-space runes, at most `fuel` of them. -/
def trimRightAux : Nat → GoString → GoString
  | 0, s => s
  | fuel + 1, s =>
    match trailingSpace s with
    | some e => trimRightAux fuel (s.take (s.length - e.length))
    | none => s

/-- Model of `strings.TrimLeftFunc(s, unicode.IsSpace)`: every rune removed is
at least one byte, so `len(s)` steps always suffice. -/
def TrimLeft (s : GoString) : GoString := trimLeftAux s.length s

/-- Model of `strings.TrimRightFunc(s, unicode.IsSpace)`. -/
def TrimRight (s : GoString) : GoString := trimRightAux s.length s

/-- Model of `strings.TrimSpace`: the string without its leading and trailing
white space, as defined by Unicode. -/
def TrimSpace (s : GoString) : GoString := TrimRight (TrimLeft s)

/-- Model of `strings.Join(elems, sep)`. -/
def Join : List GoString → GoString → GoString
  | [], _ => []
  | [a], _ => a
  | a :: b :: rest, sep => a ++ sep ++ Join (b :: rest) sep

/-- A finished field: the bytes collected since the last white space, if any. -/
def flush (cur : GoString) : List GoString := if cur = [] then [] else [cur]

/-- The scan of `strings.FieldsFunc(s, unicode.IsSpace)`: `cur` holds the bytes
of the field being read; a white-space rune ends it. -/
def fieldsAux : Nat → GoString → GoString → List GoString
  | 0, _, cur => flush cur
  | _ + 1, [], cur => flush cur
  | fuel + 1, b :: rest, cur =>
    match leadingSpace (b :: rest) with
    | some e => flush cur ++ fieldsAux fuel ((b :: rest).drop e.length) []
    | none => fieldsAux fuel rest (cur ++ [b])

/-- Model of `strings.Fields`: the maximal runs of bytes between white-space
runes.  Every step consumes a byte, so `len(s)` steps suffice. -/
def Fields (s : GoString) : List GoString := fieldsAux s.length s []

/-- The part of the string after its first `>` (0x3E), if it has one. -/
def afterClose : GoString → Option GoString
  | [] => none
  | b :: rest => if b = 0x3E then some rest else afterClose rest

/-- A match of the regular expression `<[^>]+>` that starts at a `<`: given
what follows the `<`, the rest of the string after the match.  The match
needs one byte other than `>` and then runs to the first `>`. -/
def matchTag : GoString → Option GoString
  | [] => none
  | b :: rest => if b = 0x3E then none else afterClose rest

/-- The left-to-right scan of `ReplaceAllString` for `<[^>]+>`: the leftmost
match is replaced and the scan goes on after it. -/
def replaceAux (repl : GoString) : Nat → GoString → GoString
  | 0, s => s
  | _ + 1, [] => []
  | fuel + 1, b :: rest =>
    if b = 0x3C then
      match matchTag rest with
      | some after => repl ++ replaceAux repl fuel after
      | none => b :: replaceAux repl fuel rest
    else b :: replaceAux repl fuel rest

/-- Model of `regexp.MustCompile("<[^>]+>").ReplaceAllString(src, repl)` for a
replacement without `$`. -/
def ReplaceAllString (src repl : GoString) : GoString := replaceAux repl src.length src

/-- Model of `fmt.Sprintf` for formats whose only verb is `%s`, with string
operands. -/
def Sprintf : GoString → List GoString → GoString
  | [], _ => []
  | [b], _ => [b]
  | a :: b :: rest, args =>
    if a = 0x25 ∧ b = 0x73 then
      match args with
      | [] => lit "%!s(MISSING)" ++ Sprintf rest []
      | x :: xs => x ++ Sprintf rest xs
    else a :: Sprintf (b :: rest) args

/-! ## Markup trees (`golang.org/x/net/html`) -/

/-- The node kinds of `html.NodeType`. -/
inductive NodeType
  | ErrorNode | TextNode | DocumentNode | ElementNode | CommentNode
  | DoctypeNode | RawNode
  deriving DecidableEq, Repr

/-- An `html.Node`: its `Type`, its `Data` (the text of a text node, the tag
name of an element) and its children from `FirstChild` along `NextSibling`. -/
inductive Node
  | mk (NType : NodeType) (Data : GoString) (Children : List Node)

/-! ## `internal/html/text_extractor.go` -/

/-- The closure `isSkip` of `ExtractArticleText`. -/
def isSkip (tag : GoString) : Bool :=
  if tag = lit "script" ∨ tag = lit "style" ∨ tag = lit "nav" ∨
      tag = lit "header" ∨ tag = lit "footer" ∨ tag = lit "aside" then true
  else false

mutual
/-- The closure `dfs` of `ExtractArticleText`; the `bytes.Buffer` it writes to
is passed in and returned. -/
def dfs : Node → Bool → GoString → GoString
  | .mk ty data children, skip, buf =>
    let skip1 := if ty = NodeType.ElementNode then (if isSkip data then true else skip) else skip
    let buf1 :=
      if ty = NodeType.TextNode ∧ skip1 = false then
        (if TrimSpace data ≠ [] then buf ++ TrimSpace data ++ lit " " else buf)
      else buf
    dfsChildren children skip1 buf1
/-- The loop `for c := n.FirstChild; c != nil; c = c.NextSibling` of `dfs`. -/
def dfsChildren : List Node → Bool → GoString → GoString
  | [], _, buf => buf
  | c :: cs, skip, buf => dfsChildren cs skip (dfs c skip buf)
end

/-- The value of `text` in `ExtractArticleText` after the traversal and the
trim, before the emptiness test and the length cap. -/
def accumulatedText (doc : Node) : GoString := TrimSpace (dfs doc false [])

/-- Translation of `ExtractArticleText`.  `Parse` stands for `html.Parse` on a
reader of the string: `none` is its error result. -/
def ExtractArticleText (Parse : GoString → Option Node) (htmlStr : GoString) :
    GoString × Bool :=
  match Parse htmlStr with
  | none => ([], false)
  | some doc =>
    let text := accumulatedText doc
    if text = [] then ([], false)
    else if text.length > 4000 then (text.take 4000, true)
    else (text, true)

/-- Translation of `StripHTMLToPlainText`. -/
def StripHTMLToPlainText (htmlStr : GoString) : GoString :=
  let text := ReplaceAllString htmlStr (lit " ")
  let text1 := TrimSpace text
  let fields := Fields text1
  Join fields (lit " ")

/-! ## `internal/prompt/summary_prompt.go` -/

/-- Translation of `BuildSummaryPrompt`. -/
def BuildSummaryPrompt (title url text : GoString) : GoString :=
  Sprintf (lit "Summarize the following news article in 2-3 sentences, focusing on the key facts. Title: %s; URL: %s; Content: %s")
    [title, url, text]

/-! ## `internal/types.go` and `internal/activity/create_summary.go` -/

/-- A Go `error` value, by its message. -/
structure GoError where
  msg : GoString
  deriving DecidableEq

/-- The struct `FeedItemDocument`; `ID` holds the bytes of the ObjectID and
`CreatedAt` the time as a number. -/
structure FeedItemDocument where
  ID : GoString
  Link : GoString
  Title : GoString
  Summary : GoString
  CreatedAt : Nat

/-- One lower-case hexadecimal digit. -/
def hexDigit (n : UInt8) : UInt8 := if n < 10 then 0x30 + n else 0x57 + n

/-- Model of `primitive.ObjectID.Hex`: two hexadecimal digits per byte. -/
def Hex (id : GoString) : GoString := id.flatMap (fun b => [hexDigit (b / 16), hexDigit (b % 16)])

/-- The collaborators `CreateSummary` calls: the markup parser, the file
system, the generation client (the responses it streams to the callback, and
its error result) and the document collection. -/
structure Collaborators where
  Parse : GoString → Option Node
  filepathJoin : GoString → GoString → GoString
  ReadFile : GoString → Except GoError GoString
  Generate : GoString → GoString → List GoString × Option GoError
  UpdateOne : GoString → GoString → Option GoError

/-- A call `CreateSummary` makes to a collaborator, with its arguments. -/
inductive Call
  | ReadFile (filename : GoString)
  | Generate (model prompt : GoString)
  | UpdateOne (id summary : GoString)
  deriving DecidableEq

/-- Translation of the activity returned by `CreateSummary`: the calls made,
in order, and the error returned (`none` for `nil`).  Logging is left out. -/
def CreateSummary (w : Collaborators) (model dataDir : GoString)
    (feedItemDoc : FeedItemDocument) : List Call × Option GoError :=
  let filename := w.filepathJoin dataDir (Hex feedItemDoc.ID ++ lit ".html")
  match w.ReadFile filename with
  | .error err => ([Call.ReadFile filename], some err)
  | .ok htmlContent =>
    let extracted := ExtractArticleText w.Parse htmlContent
    let articleText :=
      if extracted.2 = false ∨ extracted.1.length = 0 then StripHTMLToPlainText htmlContent
      else extracted.1
    let promptText := BuildSummaryPrompt (lit "") feedItemDoc.Link articleText
    let generated := w.Generate model promptText
    let summary := generated.1.foldl (fun acc resp => acc ++ resp) []
    match generated.2 with
    | some err => ([Call.ReadFile filename, Call.Generate model promptText], some err)
    | none =>
      match w.UpdateOne feedItemDoc.ID summary with
      | some err =>
        ([Call.ReadFile filename, Call.Generate model promptText,
          Call.UpdateOne feedItemDoc.ID summary], some err)
      | none =>
        ([Call.ReadFile filename, Call.Generate model promptText,
          Call.UpdateOne feedItemDoc.ID summary], none)

/-! ## Notions the specification uses -/

/-- The boilerplate set of the specification:
`{script, style, nav, header, footer, aside}`. -/
def boilerplateTags : List GoString :=
  [lit "script", lit "style", lit "nav", lit "header", lit "footer", lit "aside"]

/-- An element whose tag is in the boilerplate set of the specification. -/
def isBoilerplate : Node → Bool
  | .mk ty data _ => decide (ty = NodeType.ElementNode) && decide (data ∈ boilerplateTags)

mutual
/-- The white-space-trimmed contents of the text nodes of the tree that lie in
no boilerplate subtree and are non-empty after trimming, in depth-first
(document) order. -/
def visibleTexts : Node → List GoString
  | .mk ty data children =>
    if ty = NodeType.ElementNode ∧ isSkip data = true then []
    else
      (if ty = NodeType.TextNode ∧ TrimSpace data ≠ [] then [TrimSpace data] else [])
        ++ visibleTextsOfList children
/-- The visible texts of a list of sibling trees. -/
def visibleTextsOfList : List Node → List GoString
  | [] => []
  | c :: cs => visibleTexts c ++ visibleTextsOfList cs
end

/-- What writing each text followed by one space leaves in the buffer. -/
def writeAll (ts : List GoString) : GoString := ts.flatMap (fun t => t ++ lit " ")

/-- A string is trimmed when it is non-empty and neither starts nor ends with
a white-space rune. -/
def Trimmed (t : GoString) : Prop :=
  t ≠ [] ∧ leadingSpace t = none ∧ trailingSpace t = none

mutual
/-- The tree with every subtree rooted at a boilerplate element below the root
removed. -/
def prune : Node → Node
  | .mk ty data children => .mk ty data (pruneChildren children)
/-- The siblings that are not boilerplate elements, each pruned. -/
def pruneChildren : List Node → List Node
  | [] => []
  | c :: cs => if isBoilerplate c then pruneChildren cs else prune c :: pruneChildren cs
end

mutual
/-- Whether a boilerplate element occurs below the root of the tree. -/
def hasBoilerplateBelow : Node → Bool
  | .mk _ _ children => anyBoilerplate children
/-- Whether one of the siblings is, or has below it, a boilerplate element. -/
def anyBoilerplate : List Node → Bool
  | [] => false
  | c :: cs => isBoilerplate c || hasBoilerplateBelow c || anyBoilerplate cs
end

/-- The tree `html.Parse` builds for
`<html><body><h1>T</h1><p>Paragraph one.</p><script>bad()</script></body></html>`. -/
def scenarioDoc : Node :=
  .mk .DocumentNode [] [
    .mk .ElementNode (lit "html") [
      .mk .ElementNode (lit "head") [],
      .mk .ElementNode (lit "body") [
        .mk .ElementNode (lit "h1") [.mk .TextNode (lit "T") []],
        .mk .ElementNode (lit "p") [.mk .TextNode (lit "Paragraph one.") []],
        .mk .ElementNode (lit "script") [.mk .TextNode (lit "bad()") []]]]]

/-- A tree with every boilerplate tag: a paragraph, then a `div` that holds a
`nav` with a nested list, a `style`, a `header`, a `footer`, an `aside` and a
`script`, each with text, and a paragraph after them. -/
def boilerDoc : Node :=
  .mk .DocumentNode [] [
    .mk .ElementNode (lit "html") [
      .mk .ElementNode (lit "head") [
        .mk .ElementNode (lit "style") [.mk .TextNode (lit "p {}") []]],
      .mk .ElementNode (lit "body") [
        .mk .ElementNode (lit "p") [.mk .TextNode (lit "keep") []],
        .mk .ElementNode (lit "div") [
          .mk .ElementNode (lit "nav") [
            .mk .ElementNode (lit "ul") [
              .mk .ElementNode (lit "li") [.mk .TextNode (lit "menu") []]]],
          .mk .ElementNode (lit "header") [.mk .TextNode (lit "top") []],
          .mk .ElementNode (lit "footer") [.mk .TextNode (lit "bottom") []],
          .mk .ElementNode (lit "aside") [.mk .TextNode (lit "side") []],
          .mk .ElementNode (lit "script") [.mk .TextNode (lit "bad()") []]],
        .mk .ElementNode (lit "p") [.mk .TextNode (lit "after") []]]]]

/-- The markup of the scenario. -/
def scenarioMarkup : GoString :=
  lit "<html><body><h1>T</h1><p>Paragraph one.</p><script>bad()</script></body></html>"

/-- A parser that knows the scenario's markup only. -/
def scenarioParse (s : GoString) : Option Node :=
  if s = scenarioMarkup then some scenarioDoc else none

/-- The UTF-8 encoding of a sequence of characters. -/
def utf8 (cs : List Char) : GoString := cs.flatMap String.utf8EncodeChar

/-- A text of 2001 characters, each the two-byte letter U+00E9. -/
def accentChars : List Char := List.replicate 2001 '\u00e9'

/-- The tree `html.Parse` builds for a paragraph `<p>text</p>`, for a text
without markup. -/
def paragraphDoc (text : GoString) : Node :=
  .mk .DocumentNode [] [
    .mk .ElementNode (lit "html") [
      .mk .ElementNode (lit "head") [],
      .mk .ElementNode (lit "body") [
        .mk .ElementNode (lit "p") [.mk .TextNode text []]]]]

/-- The markup of a paragraph that holds `accentChars`. -/
def accentMarkup : GoString := lit "<p>" ++ utf8 accentChars ++ lit "</p>"

/-- The tree `html.Parse` builds for `accentMarkup`. -/
def accentDoc : Node := paragraphDoc (utf8 accentChars)

/-- A text of 2001 characters: the letter `a` and 2000 times the two-byte
letter U+00E9. -/
def splitChars : List Char := 'a' :: List.replicate 2000 '\u00e9'

/-- The markup of a paragraph that holds `splitChars`. -/
def splitMarkup : GoString := lit "<p>" ++ utf8 splitChars ++ lit "</p>"

/-- The tree `html.Parse` builds for `splitMarkup`. -/
def splitDoc : Node := paragraphDoc (utf8 splitChars)

/-- Collaborators for an example run: the stored content is the scenario's
markup, generation streams two responses, every call succeeds. -/
def sampleWorld : Collaborators where
  Parse := scenarioParse
  filepathJoin := fun dir name => dir ++ lit "/" ++ name
  ReadFile := fun _ => Except.ok scenarioMarkup
  Generate := fun _ _ => ([lit "A short ", lit "summary."], none)
  UpdateOne := fun _ _ => none

/-- A stored record with a title. -/
def sampleRecord : FeedItemDocument where
  ID := [0x65, 0x4a, 0x1b, 0x2c, 0x3d, 0x4e, 0x5f, 0x60, 0x71, 0x82, 0x93, 0xa4]
  Link := lit "https://example.com/article"
  Title := lit "Sample Title"
  Summary := []
  CreatedAt := 0

/-- No white-space rune occurs in the string. -/
def SpaceFree (f : GoString) : Prop := ∀ e ∈ spaceEncodings, ¬ e <:+: f

/-- A whole match of the regular expression `<[^>]+>`: a `<`, one or more
bytes other than `>`, and a `>`. -/
def TagMatch (m : GoString) : Prop :=
  ∃ body : GoString, m = 0x3C :: body ++ [0x3E] ∧ body ≠ [] ∧ (0x3E : UInt8) ∉ body

/-- Every `<` of the string is followed at once by a `>`, or by no `>` at all. -/
def Unopened : GoString → Prop
  | [] => True
  | b :: rest => (b = 0x3C → rest.head? = some 0x3E ∨ (0x3E : UInt8) ∉ rest) ∧ Unopened rest

/-- The markup of the test `TestStripHTMLToPlainText`. -/
def stripTestMarkup : GoString :=
  lit "<html><body><script>bad</script><p>Hello <b>World</b></p></body></html>"


/-! ## `internal/activity/add_new_feed_item.go` and `internal/activity/fetch_html.go` -/

/-- The struct `FeedItem`. -/
structure FeedItem where
  Link : GoString
  Title : GoString
  deriving DecidableEq

/-- An error of the MongoDB driver; `duplicateKey` is the answer of
`mongo.IsDuplicateKeyError` on it. -/
structure MongoError where
  err : GoError
  duplicateKey : Bool

/-- The zero value `internal.FeedItemDocument{}`. -/
def zeroDocument : FeedItemDocument where
  ID := List.replicate 12 0
  Link := []
  Title := []
  Summary := []
  CreatedAt := 0

/-- Translation of the activity returned by `AddNewFeedItem`, as the Go pair
(document, error).  `InsertOne` is the insert into the collection, which answers
with the inserted id or an error; `now` is `time.Now()`.  Logging is left out. -/
def AddNewFeedItem (InsertOne : FeedItemDocument → Except MongoError GoString) (now : Nat)
    (feedItem : FeedItem) : FeedItemDocument × Option GoError :=
  let doc : FeedItemDocument :=
    { zeroDocument with Link := feedItem.Link, Title := feedItem.Title, CreatedAt := now }
  match InsertOne doc with
  | .error err =>
    if err.duplicateKey = true then
      (zeroDocument, some (GoError.mk (lit "feed item already exists")))
    else (zeroDocument, some err.err)
  | .ok insertedID => ({ doc with ID := insertedID }, none)

/-- An `http.Response` as far as `FetchHTML` reads it; `Body` is what
`io.ReadAll(resp.Body)` returns. -/
structure HTTPResponse where
  StatusCode : Nat
  Status : GoString
  Body : Except GoError GoString

/-- The collaborators `FetchHTML` calls: the file system, the construction of
the request (which fails on a malformed URL) and the HTTP client, called with
the URL and the `User-Agent` header. -/
structure FetchCollaborators where
  MkdirAll : GoString → Option GoError
  NewRequest : GoString → Option GoError
  Do : GoString → GoString → Except GoError HTTPResponse
  filepathJoin : GoString → GoString → GoString
  WriteFile : GoString → GoString → Option GoError

/-- Translation of the activity returned by `FetchHTML`: the error it returns
(`none` for `nil`).  Logging is left out. -/
def FetchHTML (w : FetchCollaborators) (dataDir : GoString)
    (feedItemDoc : FeedItemDocument) : Option GoError :=
  match w.MkdirAll dataDir with
  | some err => some err
  | none =>
    match w.NewRequest feedItemDoc.Link with
    | some err => some err
    | none =>
      match w.Do feedItemDoc.Link (lit "Mozilla/5.0 (compatible; FeedsAggregator/1.0)") with
      | .error err => some err
      | .ok resp =>
        if resp.StatusCode ≠ 200 then
          some (GoError.mk (lit "received non-OK HTTP status: " ++ resp.Status))
        else
          match resp.Body with
          | .error err => some err
          | .ok body =>
            match w.WriteFile (w.filepathJoin dataDir (Hex feedItemDoc.ID ++ lit ".html")) body with
            | some err => some err
            | none => none

/-! ## `internal/workflow/ingest_feed_item.go` -/

/-- The three activities of the workflow, by the stage names of the
specification: `AddNewFeedItem`, `FetchHTML`, `CreateSummary`. -/
inductive Stage
  | Record | Fetch | Summarize
  deriving DecidableEq, Repr

/-- The struct `temporal.RetryPolicy`, as far as the workflow sets it. -/
structure RetryPolicy where
  MaximumAttempts : Nat

/-- The struct `workflow.ActivityOptions`, as far as the workflow sets it; the
timeout is in nanoseconds. -/
structure ActivityOptions where
  StartToCloseTimeout : Nat
  RetryPolicy : RetryPolicy

/-- The activities as registered with the worker.  The first argument is the
number of the attempt, counted from 1: the collaborators may answer
differently each time, and an attempt that runs into its timeout is one that
ends with an error. -/
structure Activities where
  AddNewFeedItem : Nat → FeedItem → FeedItemDocument × Option GoError
  FetchHTML : Nat → FeedItemDocument → Option GoError
  CreateSummary : Nat → FeedItemDocument → Option GoError

/-- The attempts of one activity from attempt `number` on, with `retriesLeft`
retries allowed after it: the numbers of the attempts made, and the outcome of
the last one. -/
def runAttempts {α : Type} (attempt : Nat → Except GoError α) :
    Nat → Nat → List Nat × Except GoError α
  | 0, number => ([number], attempt number)
  | retriesLeft + 1, number =>
    match attempt number with
    | .ok v => ([number], .ok v)
    | .error _ =>
      let later := runAttempts attempt retriesLeft (number + 1)
      (number :: later.1, later.2)

/-- Model of `workflow.ExecuteActivity(ctx, ...).Get(ctx, ...)` under a retry
policy with a positive `MaximumAttempts`: the engine makes the attempts one
after the other until one succeeds or `MaximumAttempts` of them have failed,
and hands back the outcome of the last.  Every error the activities of this
repository return is an ordinary Go error, which the engine retries.  The
engine hands a failure back wrapped in its own `ActivityError`; the error of
this model is the cause inside that wrapper, the error of the last attempt,
so that a result `.error e` reads: the call failed, and `e` is what the
activity returned. -/
def ExecuteActivity {α : Type} (ao : ActivityOptions) (attempt : Nat → Except GoError α) :
    List Nat × Except GoError α :=
  runAttempts attempt (ao.RetryPolicy.MaximumAttempts - 1) 1

/-- A Go result pair (value, error) as the engine sees it. -/
def pairResult {α : Type} (r : α × Option GoError) : Except GoError α :=
  match r.2 with
  | some err => .error err
  | none => .ok r.1

/-- A Go error result as the engine sees it. -/
def errorResult (r : Option GoError) : Except GoError Unit :=
  match r with
  | some err => .error err
  | none => .ok ()

/-- What a run of the workflow leaves: the attempts made, in order, each with
its stage and its number, and the error the workflow function returns. -/
structure RunResult where
  attempts : List (Stage × Nat)
  err : Option GoError

/-- One minute as a `time.Duration`, in nanoseconds. -/
def Minute : Nat := 60 * 1000000000

/-- The activity options `IngestFeedItem` puts into its context. -/
def ingestActivityOptions : ActivityOptions where
  StartToCloseTimeout := 5 * Minute
  RetryPolicy := { MaximumAttempts := 3 }

/-- Translation of the workflow function returned by `IngestFeedItem`.
Logging is left out. -/
def IngestFeedItem (acts : Activities) (feedItem : FeedItem) : RunResult :=
  let ao := ingestActivityOptions
  let r1 := ExecuteActivity ao (fun n => pairResult (acts.AddNewFeedItem n feedItem))
  let a1 := r1.1.map (fun n => (Stage.Record, n))
  match r1.2 with
  | .error err => { attempts := a1, err := some err }
  | .ok feedItemDoc =>
    let r2 := ExecuteActivity ao (fun n => errorResult (acts.FetchHTML n feedItemDoc))
    let a2 := r2.1.map (fun n => (Stage.Fetch, n))
    match r2.2 with
    | .error err => { attempts := a1 ++ a2, err := some err }
    | .ok _ =>
      let r3 := ExecuteActivity ao (fun n => errorResult (acts.CreateSummary n feedItemDoc))
      let a3 := r3.1.map (fun n => (Stage.Summarize, n))
      match r3.2 with
      | .error err => { attempts := a1 ++ a2 ++ a3, err := some err }
      | .ok _ => { attempts := a1 ++ a2 ++ a3, err := none }

/-- The collaborators of the worker as they answer during one attempt. -/
structure WorkerEnv where
  InsertOne : FeedItemDocument → Except MongoError GoString
  now : Nat
  fetch : FetchCollaborators
  summary : Collaborators
  model : GoString
  dataDir : GoString

/-- The activities as `cmd/worker/main.go` registers them, over collaborators
that may answer differently at each attempt of each stage. -/
def workerActivities (env : Stage → Nat → WorkerEnv) : Activities where
  AddNewFeedItem := fun n feedItem =>
    AddNewFeedItem (env Stage.Record n).InsertOne (env Stage.Record n).now feedItem
  FetchHTML := fun n doc =>
    FetchHTML (env Stage.Fetch n).fetch (env Stage.Fetch n).dataDir doc
  CreateSummary := fun n doc =>
    (CreateSummary (env Stage.Summarize n).summary (env Stage.Summarize n).model
      (env Stage.Summarize n).dataDir doc).2

/-- The attempts of one stage among the attempts of a run. -/
def attemptsOf (st : Stage) (r : RunResult) : List Nat :=
  (r.attempts.filter (fun a => a.1 = st)).map (fun a => a.2)

/-- The attempt numbered `k` is the first that succeeds, and it returns `v`. -/
def FirstSuccessAt {α : Type} (attempt : Nat → Except GoError α) (k : Nat) (v : α) : Prop :=
  attempt k = .ok v ∧ ∀ j, 1 ≤ j → j < k → ∃ e, attempt j = .error e

/-- The position of a stage in the pipeline. -/
def stageIndex : Stage → Nat
  | .Record => 0
  | .Fetch => 1
  | .Summarize => 2

/-- The user agent `FetchHTML` sends. -/
def userAgent : GoString := lit "Mozilla/5.0 (compatible; FeedsAggregator/1.0)"

/-- A feed item for the examples. -/
def sampleItem : FeedItem where
  Link := lit "https://x/a"
  Title := lit "A"

/-- Fetch collaborators whose server answers every request with the given
status. -/
def statusFetch (code : Nat) (status : GoString) : FetchCollaborators where
  MkdirAll := fun _ => none
  NewRequest := fun _ => none
  Do := fun _ _ => .ok { StatusCode := code, Status := status, Body := .ok scenarioMarkup }
  filepathJoin := fun dir name => dir ++ lit "/" ++ name
  WriteFile := fun _ _ => none

/-- A worker whose collection holds no record yet and whose collaborators all
succeed. -/
def goodEnv : WorkerEnv where
  InsertOne := fun _ => .ok sampleRecord.ID
  now := 0
  fetch := statusFetch 200 (lit "200 OK")
  summary := sampleWorld
  model := lit "llama3"
  dataDir := lit "data"

/-- A worker whose collection already holds a record with the link: every
insert fails with a duplicate-key error. -/
def duplicateEnv : Stage → Nat → WorkerEnv := fun _ _ =>
  { goodEnv with
    InsertOne := fun _ =>
      .error { err := GoError.mk (lit "E11000 duplicate key error"), duplicateKey := true } }

/-- A worker whose content server answers 404 to every request. -/
def notFoundEnv : Stage → Nat → WorkerEnv := fun _ _ =>
  { goodEnv with fetch := statusFetch 404 (lit "404 Not Found") }

/-- A worker whose insert fails twice with a transient error and succeeds at
the third attempt. -/
def flakyEnv : Stage → Nat → WorkerEnv := fun st n =>
  if st = Stage.Record ∧ n < 3 then
    { goodEnv with
      InsertOne := fun _ =>
        .error { err := GoError.mk (lit "connection reset"), duplicateKey := false } }
  else goodEnv

/-- The Record stage of a run: the attempts the engine makes of
`AddNewFeedItem`, and the outcome. -/
def recordRun (acts : Activities) (feedItem : FeedItem) :
    List Nat × Except GoError FeedItemDocument :=
  ExecuteActivity ingestActivityOptions (fun n => pairResult (acts.AddNewFeedItem n feedItem))

/-- The Fetch stage of a run on the recorded document. -/
def fetchRun (acts : Activities) (doc : FeedItemDocument) : List Nat × Except GoError Unit :=
  ExecuteActivity ingestActivityOptions (fun n => errorResult (acts.FetchHTML n doc))

/-- The Summarize stage of a run on the recorded document. -/
def summarizeRun (acts : Activities) (doc : FeedItemDocument) :
    List Nat × Except GoError Unit :=
  ExecuteActivity ingestActivityOptions (fun n => errorResult (acts.CreateSummary n doc))

/-- The attempts of a stage, each tagged with the stage. -/
def tagged (st : Stage) (numbers : List Nat) : List (Stage × Nat) :=
  numbers.map (fun n => (st, n))

/-! ## `cmd/ingester/main.go` -/

/-- A feed source of `internal.FeedList`. -/
structure Feed where
  Title : GoString
  XMLURL : GoString

/-- A `gofeed.Item`, as far as the ingester reads it. -/
structure Item where
  Link : GoString
  Title : GoString

/-- A parsed `gofeed.Feed`, as far as the ingester reads it. -/
structure ParsedFeed where
  Title : GoString
  Items : List Item

/-- One hour as a `time.Duration`, in nanoseconds. -/
def Hour : Nat := 60 * Minute

/-- A key of the dedup cache with its value and the time it expires at. -/
structure CacheEntry where
  key : GoString
  value : GoString
  expiresAt : Nat

/-- The value the cache holds for a key at a time: that of the entry written
last for the key, while it has not expired. -/
def cacheLookup (cache : List CacheEntry) (now : Nat) (key : GoString) : Option GoString :=
  match cache.find? (fun e => e.key = key) with
  | some e => if now < e.expiresAt then some e.value else none
  | none => none

/-- How the collaborators answer during one call of `processItem`: the time,
and the failures of the cache commands and of the submission, if any. -/
structure Outside where
  now : Nat
  getError : Option GoError
  setError : Option GoError
  startError : Option GoError

/-- The result of `rdb.Get(ctx, key).Result()`: a value, the error `redis.Nil`
for a key the cache does not hold, or another error. -/
inductive GetResult
  | value (v : GoString)
  | redisNil
  | failed (err : GoError)

/-- Model of `rdb.Get` over the cache state. -/
def rdbGet (o : Outside) (cache : List CacheEntry) (key : GoString) : GetResult :=
  match o.getError with
  | some err => .failed err
  | none =>
    match cacheLookup cache o.now key with
    | some v => .value v
    | none => .redisNil

/-- Model of `rdb.Set` with an expiration over the cache state: a command that
fails writes nothing. -/
def rdbSet (o : Outside) (cache : List CacheEntry) (key value : GoString) (ttl : Nat) :
    List CacheEntry :=
  match o.setError with
  | some _ => cache
  | none => { key := key, value := value, expiresAt := o.now + ttl } :: cache

/-- A call the ingester makes to a collaborator, with its arguments. -/
inductive IngesterCall
  | ParseURL (url : GoString)
  | Get (key : GoString)
  | Set (key value : GoString) (ttl : Nat)
  | ExecuteWorkflow (ID TaskQueue workflowName : GoString) (feedItem : FeedItem)
  deriving DecidableEq

/-- The state the ingester acts on: the dedup cache, the calls made so far in
order, and the submissions the orchestrator accepted. -/
structure IngesterState where
  cache : List CacheEntry
  calls : List IngesterCall
  accepted : List (GoString × FeedItem)

/-- The constants of package `internal` the ingester names: `TaskQueueName`
and the workflow name `GetFunctionName(workflow.IngestFeedItem)`. -/
structure IngesterNames where
  TaskQueueName : GoString
  IngestFeedItemName : GoString

/-- The expression `fmt.Sprintf("ingest-feed-item-%s", item.Link)` of
`processItem`. -/
def workflowID (link : GoString) : GoString := Sprintf (lit "ingest-feed-item-%s") [link]

/-- Translation of `processItem`.  Tracing, metrics and logging are left out. -/
def processItem (names : IngesterNames) (o : Outside) (s : IngesterState)
    (feedTitle : GoString) (item : Item) : IngesterState :=
  let s1 : IngesterState := { s with calls := s.calls ++ [IngesterCall.Get item.Link] }
  match rdbGet o s.cache item.Link with
  | .redisNil =>
    let ttl := 24 * 7 * Hour
    let feedItem : FeedItem := { Link := item.Link, Title := item.Title }
    let s2 : IngesterState :=
      { s1 with
        cache := rdbSet o s1.cache item.Link (lit "1") ttl
        calls := s1.calls ++ [IngesterCall.Set item.Link (lit "1") ttl] }
    let s3 : IngesterState :=
      { s2 with
        calls := s2.calls ++ [IngesterCall.ExecuteWorkflow (workflowID item.Link)
          names.TaskQueueName names.IngestFeedItemName feedItem] }
    match o.startError with
    | some _ => s3
    | none => { s3 with accepted := s3.accepted ++ [(workflowID item.Link, feedItem)] }
  | .failed _ => s1
  | .value _ => s1

/-- The world of one processing cycle: what the feed parser answers for a
URL, and how the collaborators answer during the call of `processItem` that
starts when the given number of calls has been made. -/
structure IngesterWorld where
  ParseURL : GoString → Except GoError ParsedFeed
  outside : Nat → Outside

/-- The loop `for _, item := range feed.Items` of `processFeedActivity`. -/
def processItems (names : IngesterNames) (w : IngesterWorld) (feedTitle : GoString) :
    List Item → IngesterState → IngesterState
  | [], s => s
  | item :: rest, s =>
    processItems names w feedTitle rest
      (processItem names (w.outside s.calls.length) s feedTitle item)

/-- Translation of `processFeedActivity`: the new state and the error
returned. -/
def processFeedActivity (names : IngesterNames) (w : IngesterWorld) (s : IngesterState)
    (f : Feed) : IngesterState × Option GoError :=
  let s1 : IngesterState := { s with calls := s.calls ++ [IngesterCall.ParseURL f.XMLURL] }
  match w.ParseURL f.XMLURL with
  | .error _ => (s1, none)
  | .ok feed => (processItems names w feed.Title feed.Items s1, none)

/-- Translation of `processAllFeeds`; an error of `processFeedActivity` is
only logged. -/
def processAllFeeds (names : IngesterNames) (w : IngesterWorld) :
    List Feed → IngesterState → IngesterState
  | [], s => s
  | feed :: rest, s =>
    processAllFeeds names w rest (processFeedActivity names w s feed).1

/-- The URLs the feed parser was called with, in order. -/
def parsedURLs : List IngesterCall → List GoString
  | [] => []
  | IngesterCall.ParseURL url :: rest => url :: parsedURLs rest
  | _ :: rest => parsedURLs rest

/-- The keys looked up in the cache, in order: one for each call of
`processItem`. -/
def lookedUp : List IngesterCall → List GoString
  | [] => []
  | IngesterCall.Get key :: rest => key :: lookedUp rest
  | _ :: rest => lookedUp rest

/-- The runs submitted to the orchestrator, in order. -/
def submitted : List IngesterCall → List (GoString × FeedItem)
  | [] => []
  | IngesterCall.ExecuteWorkflow id _ _ feedItem :: rest => (id, feedItem) :: submitted rest
  | _ :: rest => submitted rest

/-- The items a source contributes to a cycle: those of its feed, none when
fetching or parsing it fails. -/
def itemsOf (w : IngesterWorld) (f : Feed) : List Item :=
  match w.ParseURL f.XMLURL with
  | .error _ => []
  | .ok feed => feed.Items

/-- The names for the examples. -/
def sampleNames : IngesterNames where
  TaskQueueName := lit "feeds"
  IngestFeedItemName := lit "IngestFeedItem"

/-- The discovered item of the scenario, with link "https://x/a". -/
def itemA : Item where
  Link := lit "https://x/a"
  Title := lit "A"

/-- An ingester that has done nothing yet, with an empty cache. -/
def emptyState : IngesterState where
  cache := []
  calls := []
  accepted := []

/-- Collaborators that all succeed, at the given time. -/
def calmAt (now : Nat) : Outside where
  now := now
  getError := none
  setError := none
  startError := none

/-- Collaborators of which the orchestrator refuses the submission. -/
def refusedAt (now : Nat) : Outside where
  now := now
  getError := none
  setError := none
  startError := some (GoError.mk (lit "temporal unavailable"))

/-- A source whose feed cannot be fetched. -/
def brokenFeed : Feed where
  Title := lit "Broken"
  XMLURL := lit "https://broken/feed.xml"

/-- A source whose feed holds the item of the scenario. -/
def workingFeed : Feed where
  Title := lit "Working"
  XMLURL := lit "https://x/feed.xml"

/-- A cycle in which the first source fails and the second is parsed. -/
def sampleIngesterWorld : IngesterWorld where
  ParseURL := fun url =>
    if url = workingFeed.XMLURL then .ok { Title := lit "Working", Items := [itemA] }
    else .error (GoError.mk (lit "http error: 503 Service Unavailable"))
  outside := fun n => calmAt n
/-! ## White space and trimming -/

theorem spaceEnc_ne_nil : ∀ e ∈ spaceEncodings, e ≠ [] := by decide

theorem spaceEnc_ascii : ∀ e ∈ spaceEncodings, ∀ b ∈ e, b < 0x80 → e = [b] := by decide

theorem space_mem : [0x20] ∈ spaceEncodings := by decide

theorem leadingSpace_some {s e : GoString} (h : leadingSpace s = some e) :
    e ∈ spaceEncodings ∧ e <+: s := by
  unfold leadingSpace at h
  refine ⟨List.mem_of_find?_eq_some h, ?_⟩
  have := List.find?_some h
  simpa using this

theorem leadingSpace_none {s : GoString} :
    leadingSpace s = none ↔ ∀ e ∈ spaceEncodings, ¬ e <+: s := by
  unfold leadingSpace
  simp [List.find?_eq_none]

theorem trailingSpace_some {s e : GoString} (h : trailingSpace s = some e) :
    e ∈ spaceEncodings ∧ e <:+ s := by
  unfold trailingSpace at h
  refine ⟨List.mem_of_find?_eq_some h, ?_⟩
  have := List.find?_some h
  simpa using this

theorem trailingSpace_none {s : GoString} :
    trailingSpace s = none ↔ ∀ e ∈ spaceEncodings, ¬ e <:+ s := by
  unfold trailingSpace
  simp [List.find?_eq_none]

theorem trimLeftAux_of_none {s : GoString} (h : leadingSpace s = none) (fuel : Nat) :
    trimLeftAux fuel s = s := by
  cases fuel with
  | zero => rfl
  | succ n => simp [trimLeftAux, h]

theorem trimRightAux_of_none {s : GoString} (h : trailingSpace s = none) (fuel : Nat) :
    trimRightAux fuel s = s := by
  cases fuel with
  | zero => rfl
  | succ n => simp [trimRightAux, h]

theorem trimLeftAux_suffix (fuel : Nat) (s : GoString) : trimLeftAux fuel s <:+ s := by
  induction fuel generalizing s with
  | zero => exact List.suffix_refl _
  | succ n ih =>
    unfold trimLeftAux
    split
    · exact (ih _).trans (List.drop_suffix _ _)
    · exact List.suffix_refl _

theorem trimRightAux_isPrefix (fuel : Nat) (s : GoString) : trimRightAux fuel s <+: s := by
  induction fuel generalizing s with
  | zero => exact List.prefix_refl _
  | succ n ih =>
    unfold trimRightAux
    split
    · exact (ih _).trans (List.take_prefix _ _)
    · exact List.prefix_refl _

theorem trimLeftAux_done (fuel : Nat) (s : GoString) (h : s.length ≤ fuel) :
    leadingSpace (trimLeftAux fuel s) = none := by
  induction fuel generalizing s with
  | zero =>
    have : s = [] := List.length_eq_zero.mp (Nat.le_zero.mp h)
    subst this
    decide
  | succ n ih =>
    unfold trimLeftAux
    split
    · rename_i e he
      have ⟨hm, hp⟩ := leadingSpace_some he
      have hne := spaceEnc_ne_nil e hm
      have hl : 0 < e.length := List.length_pos.mpr hne
      have hle := hp.length_le
      apply ih
      simp only [List.length_drop]
      omega
    · assumption

theorem trimRightAux_done (fuel : Nat) (s : GoString) (h : s.length ≤ fuel) :
    trailingSpace (trimRightAux fuel s) = none := by
  induction fuel generalizing s with
  | zero =>
    have : s = [] := List.length_eq_zero.mp (Nat.le_zero.mp h)
    subst this
    decide
  | succ n ih =>
    unfold trimRightAux
    split
    · rename_i e he
      have ⟨hm, hp⟩ := trailingSpace_some he
      have hne := spaceEnc_ne_nil e hm
      have hl : 0 < e.length := List.length_pos.mpr hne
      have hle := hp.length_le
      apply ih
      simp only [List.length_take]
      omega
    · assumption

theorem TrimSpace_trimmed (s : GoString) (h : TrimSpace s ≠ []) : Trimmed (TrimSpace s) := by
  refine ⟨h, ?_, ?_⟩
  · rw [leadingSpace_none]
    intro e he hp
    have h1 : leadingSpace (TrimLeft s) = none := trimLeftAux_done _ _ (Nat.le_refl _)
    rw [leadingSpace_none] at h1
    exact h1 e he (hp.trans (trimRightAux_isPrefix _ _))
  · exact trimRightAux_done _ _ (Nat.le_refl _)

theorem TrimSpace_of_trimmed {t : GoString} (h : leadingSpace t = none) (h2 : trailingSpace t = none) :
    TrimSpace t = t := by
  unfold TrimSpace TrimLeft TrimRight
  rw [trimLeftAux_of_none h, trimRightAux_of_none h2]

mutual
theorem dfs_skip : ∀ (n : Node) (buf : GoString), dfs n true buf = buf
  | .mk ty data children, buf => by
    rw [dfs]
    by_cases hty : ty = NodeType.ElementNode
    · simp [hty, dfsChildren_skip children buf]
    · simp [hty, dfsChildren_skip children buf]
theorem dfsChildren_skip : ∀ (cs : List Node) (buf : GoString), dfsChildren cs true buf = buf
  | [], buf => by rw [dfsChildren]
  | c :: cs, buf => by rw [dfsChildren, dfs_skip c buf, dfsChildren_skip cs buf]
end

mutual
theorem dfs_eq : ∀ (n : Node) (buf : GoString),
    dfs n false buf = buf ++ writeAll (visibleTexts n)
  | .mk ty data children, buf => by
    rw [dfs, visibleTexts]
    by_cases hty : ty = NodeType.ElementNode
    · by_cases hs : isSkip data = true
      · simp [hty, hs, dfsChildren_skip, writeAll]
      · simp [hty, hs, dfsChildren_eq children buf]
    · by_cases ht : ty = NodeType.TextNode
      · by_cases he : TrimSpace data = []
        · simp [ht, he, dfsChildren_eq children buf]
        · simp [ht, he, dfsChildren_eq children, writeAll]
      · simp [hty, ht, dfsChildren_eq children buf]
theorem dfsChildren_eq : ∀ (cs : List Node) (buf : GoString),
    dfsChildren cs false buf = buf ++ writeAll (visibleTextsOfList cs)
  | [], buf => by simp [dfsChildren, visibleTextsOfList, writeAll]
  | c :: cs, buf => by
    rw [dfsChildren, dfs_eq c buf, dfsChildren_eq cs, visibleTextsOfList]
    simp [writeAll]
end


theorem lit_space : lit " " = [0x20] := by decide

theorem enc_prefix_sep {e t Y : GoString} (he : e ∈ spaceEncodings) (ht : t ≠ [])
    (h : e <+: t ++ 0x20 :: Y) : e <+: t := by
  by_cases hl : e.length ≤ t.length
  · exact List.prefix_of_prefix_length_le h (List.prefix_append _ _) hl
  · exfalso
    have hte : t <+: e :=
      List.prefix_of_prefix_length_le (List.prefix_append _ _) h (by omega)
    obtain ⟨r, hr⟩ := hte
    subst hr
    have hr2 : r <+: 0x20 :: Y := (List.prefix_append_right_inj t).mp h
    have hrne : r ≠ [] := by
      intro h0; subst h0; simp at hl
    obtain ⟨b, r1, rfl⟩ := List.exists_cons_of_ne_nil hrne
    have hb : b = 0x20 := by
      obtain ⟨z, hz⟩ := hr2
      simp at hz
      exact hz.1
    subst hb
    have := spaceEnc_ascii _ he 0x20 (by simp) (by decide)
    have hlen := congrArg List.length this
    have : 0 < t.length := List.length_pos.mpr ht
    simp at hlen
    omega

theorem enc_suffix_sep {e t X : GoString} (he : e ∈ spaceEncodings) (ht : t ≠ [])
    (h : e <:+ X ++ 0x20 :: t) : e <:+ t := by
  have h' : e <:+ (X ++ [0x20]) ++ t := by simpa using h
  by_cases hl : e.length ≤ t.length
  · exact List.suffix_of_suffix_length_le h' (List.suffix_append _ _) hl
  · exfalso
    have hte : t <:+ e :=
      List.suffix_of_suffix_length_le (List.suffix_append _ _) h' (by omega)
    obtain ⟨r, hr⟩ := hte
    subst hr
    have hr2 : r <:+ X ++ [0x20] := by
      obtain ⟨z, hz⟩ := h'
      rw [← List.append_assoc] at hz
      exact ⟨z, List.append_cancel_right hz⟩
    have hrne : r ≠ [] := by
      intro h0; subst h0; simp at hl
    have hmem : (0x20 : UInt8) ∈ r := by
      obtain ⟨z, hz⟩ := hr2
      have h1 : (z ++ r).getLast? = some 0x20 := by rw [hz]; simp
      rw [List.getLast?_append_of_ne_nil _ hrne] at h1
      exact List.mem_of_getLast?_eq_some h1
    have := spaceEnc_ascii _ he 0x20 (by simp [hmem]) (by decide)
    have hlen := congrArg List.length this
    have h1 : 0 < t.length := List.length_pos.mpr ht
    have h2 : 0 < r.length := List.length_pos.mpr hrne
    simp at hlen
    omega

theorem Join_cons_cons (a b : GoString) (rest : List GoString) (sep : GoString) :
    Join (a :: b :: rest) sep = a ++ sep ++ Join (b :: rest) sep := rfl

theorem Join_ne_nil {t : GoString} (ts : List GoString) (sep : GoString) (ht : t ≠ []) :
    Join (t :: ts) sep ≠ [] := by
  cases ts with
  | nil => simpa [Join] using ht
  | cons b rest => simp [Join_cons_cons, ht]

theorem writeAll_eq_Join (t : GoString) (ts : List GoString) :
    writeAll (t :: ts) = Join (t :: ts) [0x20] ++ [0x20] := by
  induction ts generalizing t with
  | nil => simp [writeAll, Join, lit_space]
  | cons b rest ih =>
    have : writeAll (t :: b :: rest) = t ++ [0x20] ++ writeAll (b :: rest) := by
      simp [writeAll, lit_space]
    rw [this, ih b, Join_cons_cons]
    simp

theorem leadingSpace_Join_append {t : GoString} (ts : List GoString) (Y : GoString)
    (ht : t ≠ []) (hl : leadingSpace t = none) :
    leadingSpace (Join (t :: ts) [0x20] ++ 0x20 :: Y) = none := by
  rw [leadingSpace_none] at hl ⊢
  intro e he hp
  cases ts with
  | nil => exact hl e he (enc_prefix_sep he ht (by simpa [Join] using hp))
  | cons b rest =>
    rw [Join_cons_cons] at hp
    exact hl e he (enc_prefix_sep (Y := Join (b :: rest) [0x20] ++ 0x20 :: Y) he ht (by simpa using hp))

theorem leadingSpace_Join {t : GoString} (ts : List GoString)
    (ht : t ≠ []) (hl : leadingSpace t = none) :
    leadingSpace (Join (t :: ts) [0x20]) = none := by
  rw [leadingSpace_none] at hl ⊢
  intro e he hp
  cases ts with
  | nil => exact hl e he (by simpa [Join] using hp)
  | cons b rest =>
    rw [Join_cons_cons] at hp
    exact hl e he (enc_prefix_sep (Y := Join (b :: rest) [0x20]) he ht (by simpa using hp))

theorem trailingSpace_Join (t : GoString) (ts : List GoString)
    (h : ∀ x ∈ t :: ts, Trimmed x) :
    trailingSpace (Join (t :: ts) [0x20]) = none := by
  induction ts generalizing t with
  | nil => simpa [Join] using (h t (by simp)).2.2
  | cons b rest ih =>
    have ihb := ih b (fun x hx => h x (List.mem_cons_of_mem _ hx))
    rw [trailingSpace_none] at ihb ⊢
    intro e he hs
    rw [Join_cons_cons] at hs
    have hb : b ≠ [] := (h b (by simp)).1
    exact ihb e he (enc_suffix_sep (X := t) he (Join_ne_nil rest _ hb) (by simpa using hs))

theorem trailingSpace_snoc_space (x : GoString) : trailingSpace (x ++ [0x20]) = some [0x20] := by
  cases h : trailingSpace (x ++ [0x20]) with
  | none =>
    rw [trailingSpace_none] at h
    exact absurd (List.suffix_append _ _) (h [0x20] space_mem)
  | some e =>
    have ⟨hm, hs⟩ := trailingSpace_some h
    have hne := spaceEnc_ne_nil e hm
    have hmem : (0x20 : UInt8) ∈ e := by
      obtain ⟨z, hz⟩ := hs
      have h1 : (z ++ e).getLast? = some 0x20 := by rw [hz]; simp
      rw [List.getLast?_append_of_ne_nil _ hne] at h1
      exact List.mem_of_getLast?_eq_some h1
    rw [spaceEnc_ascii e hm 0x20 hmem (by decide)]

theorem TrimSpace_writeAll (ts : List GoString) (h : ∀ x ∈ ts, Trimmed x) :
    TrimSpace (writeAll ts) = Join ts [0x20] := by
  cases ts with
  | nil => decide
  | cons t rest =>
    rw [writeAll_eq_Join]
    have ht := h t (by simp)
    have hL : leadingSpace (Join (t :: rest) [0x20] ++ [0x20]) = none :=
      leadingSpace_Join_append rest [] ht.1 ht.2.1
    unfold TrimSpace TrimLeft
    rw [trimLeftAux_of_none hL]
    unfold TrimRight
    simp only [List.length_append, List.length_singleton]
    rw [trimRightAux, trailingSpace_snoc_space]
    simp only [List.length_append, List.length_singleton, Nat.add_sub_cancel, List.take_left']
    exact trimRightAux_of_none (trailingSpace_Join t rest h) _

/-! ## The traversal -/

mutual
theorem visibleTexts_trimmed : ∀ (n : Node), ∀ t ∈ visibleTexts n, Trimmed t
  | .mk ty data children => by
    intro t ht
    rw [visibleTexts] at ht
    split at ht
    · simp at ht
    · rcases List.mem_append.mp ht with h | h
      · split at h
        · rename_i hc
          simp only [List.mem_singleton] at h
          subst h
          exact TrimSpace_trimmed data hc.2
        · simp at h
      · exact visibleTextsOfList_trimmed children t h
theorem visibleTextsOfList_trimmed : ∀ (cs : List Node), ∀ t ∈ visibleTextsOfList cs, Trimmed t
  | [] => by intro t ht; simp [visibleTextsOfList] at ht
  | c :: cs => by
    intro t ht
    rw [visibleTextsOfList] at ht
    rcases List.mem_append.mp ht with h | h
    · exact visibleTexts_trimmed c t h
    · exact visibleTextsOfList_trimmed cs t h
end

theorem accumulatedText_eq (doc : Node) :
    accumulatedText doc = Join (visibleTexts doc) (lit " ") := by
  unfold accumulatedText
  rw [dfs_eq, List.nil_append, TrimSpace_writeAll _ (visibleTexts_trimmed doc), lit_space]

theorem leadingSpace_nil : leadingSpace [] = none := by decide

theorem trailingSpace_nil : trailingSpace [] = none := by decide

theorem Join_trimmed_ends (ts : List GoString) (h : ∀ t ∈ ts, Trimmed t) :
    leadingSpace (Join ts [0x20]) = none ∧ trailingSpace (Join ts [0x20]) = none := by
  cases ts with
  | nil => exact ⟨leadingSpace_nil, trailingSpace_nil⟩
  | cons t rest =>
    have ht := h t (by simp)
    exact ⟨leadingSpace_Join rest ht.1 ht.2.1, trailingSpace_Join t rest h⟩

theorem Join_eq_nil_iff (ts : List GoString) (sep : GoString) (h : ∀ t ∈ ts, t ≠ []) :
    Join ts sep = [] ↔ ts = [] := by
  cases ts with
  | nil => simp [Join]
  | cons t rest =>
    have := Join_ne_nil rest sep (h t (by simp))
    simp [this]

theorem isInfix_Join (ts : List GoString) (sep t : GoString) (h : t ∈ ts) :
    t <:+: Join ts sep := by
  induction ts with
  | nil => simp at h
  | cons a rest ih =>
    cases rest with
    | nil =>
      simp only [List.mem_singleton] at h
      subst h
      exact List.infix_refl _
    | cons b rest2 =>
      rw [Join_cons_cons]
      rcases List.mem_cons.mp h with h1 | h1
      · subst h1
        rw [List.append_assoc]
        exact (List.prefix_append _ _).isInfix
      · exact (ih h1).trans (List.suffix_append _ _).isInfix

theorem accumulatedText_eq_nil_iff (doc : Node) :
    accumulatedText doc = [] ↔ visibleTexts doc = [] := by
  rw [accumulatedText_eq]
  exact Join_eq_nil_iff _ _ (fun t ht => (visibleTexts_trimmed doc t ht).1)

theorem ExtractArticleText_of_parse {Parse : GoString → Option Node} {htmlStr : GoString}
    {doc : Node} (h : Parse htmlStr = some doc) :
    ExtractArticleText Parse htmlStr =
      if accumulatedText doc = [] then ([], false)
      else ((accumulatedText doc).take 4000, true) := by
  unfold ExtractArticleText
  rw [h]
  simp only
  by_cases h0 : accumulatedText doc = []
  · simp [h0]
  · by_cases h1 : (accumulatedText doc).length > 4000
    · simp [h0, h1]
    · simp only [h0, h1, if_false]
      rw [List.take_of_length_le (by omega)]

/-! ## Pruning boilerplate subtrees -/

theorem isSkip_iff (tag : GoString) : isSkip tag = true ↔ tag ∈ boilerplateTags := by
  unfold isSkip boilerplateTags
  simp only [List.mem_cons, List.mem_singleton, List.not_mem_nil, or_false]
  split <;> simp [*]

theorem dfs_boilerplate (tag : GoString) (children : List Node) (skip : Bool) (buf : GoString)
    (h : tag ∈ boilerplateTags) :
    dfs (Node.mk NodeType.ElementNode tag children) skip buf = buf := by
  rw [dfs]
  simp [(isSkip_iff tag).mpr h, dfsChildren_skip]

theorem visibleTexts_of_boilerplate : ∀ (n : Node), isBoilerplate n = true → visibleTexts n = []
  | .mk ty data children => by
    intro h
    simp only [isBoilerplate, Bool.and_eq_true, decide_eq_true_eq] at h
    rw [visibleTexts]
    simp [h.1, (isSkip_iff data).mpr h.2]

mutual
theorem visibleTexts_prune : ∀ (n : Node), visibleTexts (prune n) = visibleTexts n
  | .mk ty data children => by
    rw [prune, visibleTexts, visibleTexts, visibleTextsOfList_prune children]
theorem visibleTextsOfList_prune :
    ∀ (cs : List Node), visibleTextsOfList (pruneChildren cs) = visibleTextsOfList cs
  | [] => by rw [pruneChildren]
  | c :: cs => by
    rw [pruneChildren]
    split
    · rename_i hb
      rw [visibleTextsOfList, visibleTexts_of_boilerplate c hb, visibleTextsOfList_prune cs]
      rfl
    · rw [visibleTextsOfList, visibleTextsOfList, visibleTexts_prune c,
        visibleTextsOfList_prune cs]
end

theorem isBoilerplate_prune : ∀ (n : Node), isBoilerplate (prune n) = isBoilerplate n
  | .mk ty data children => by rw [prune, isBoilerplate, isBoilerplate]

mutual
theorem hasBoilerplateBelow_prune : ∀ (n : Node), hasBoilerplateBelow (prune n) = false
  | .mk ty data children => by
    rw [prune, hasBoilerplateBelow, anyBoilerplate_pruneChildren children]
theorem anyBoilerplate_pruneChildren :
    ∀ (cs : List Node), anyBoilerplate (pruneChildren cs) = false
  | [] => by rw [pruneChildren, anyBoilerplate]
  | c :: cs => by
    rw [pruneChildren]
    split
    · exact anyBoilerplate_pruneChildren cs
    · rename_i hb
      rw [anyBoilerplate, isBoilerplate_prune, hasBoilerplateBelow_prune c,
        anyBoilerplate_pruneChildren cs]
      simpa using hb
end

theorem accumulatedText_prune (doc : Node) :
    accumulatedText (prune doc) = accumulatedText doc := by
  rw [accumulatedText_eq, accumulatedText_eq, visibleTexts_prune]

/-! ## A text of two-byte characters -/

theorem utf8_replicate_length (n : Nat) (c : Char) :
    (utf8 (List.replicate n c)).length = n * (String.utf8EncodeChar c).length := by
  induction n with
  | zero => simp [utf8]
  | succ k ih =>
    have : utf8 (List.replicate (k + 1) c) = String.utf8EncodeChar c ++ utf8 (List.replicate k c) := by
      simp [utf8, List.replicate_succ]
    rw [this, List.length_append, ih]
    ring

theorem accent_bytes : String.utf8EncodeChar '\u00e9' = [0xC3, 0xA9] := by decide

theorem utf8_accent_succ (n : Nat) :
    utf8 (List.replicate (n + 1) '\u00e9') = 0xC3 :: 0xA9 :: utf8 (List.replicate n '\u00e9') := by
  simp [utf8, List.replicate_succ, accent_bytes]

theorem utf8_accent_snoc (n : Nat) :
    utf8 (List.replicate (n + 1) '\u00e9') = utf8 (List.replicate n '\u00e9') ++ [0xC3, 0xA9] := by
  simp [utf8, List.replicate_succ', accent_bytes]

theorem trimmed_of_accent_end (s pre rest : GoString) (h : UInt8)
    (hs : s = h :: rest) (he : s = pre ++ [0xC3, 0xA9])
    (hh : ∀ e ∈ spaceEncodings, e.head? ≠ some h) : Trimmed s := by
  refine ⟨by rw [hs]; simp, ?_, ?_⟩
  · rw [leadingSpace_none, hs]
    intro e he2 hp
    rcases List.prefix_cons_iff.mp hp with h0 | ⟨t, ht, _⟩
    · exact spaceEnc_ne_nil e he2 h0
    · have := hh e he2
      rw [ht] at this
      simp at this
  · rw [trailingSpace_none, he]
    intro e he2 hsuf
    have h3 : ∀ e ∈ spaceEncodings, ¬ e <:+ [0xC3, 0xA9] ∧ ¬ [0xC3, 0xA9] <:+ e := by decide
    rcases List.suffix_or_suffix_of_suffix hsuf (List.suffix_append _ _) with h1 | h1
    · exact (h3 e he2).1 h1
    · exact (h3 e he2).2 h1

theorem accent_trimmed (n : Nat) : Trimmed (utf8 (List.replicate (n + 1) '\u00e9')) :=
  trimmed_of_accent_end _ _ _ 0xC3 (utf8_accent_succ n) (utf8_accent_snoc n) (by decide)

theorem utf8_cons_a (cs : List Char) : utf8 ('a' :: cs) = 0x61 :: utf8 cs := by
  have : String.utf8EncodeChar 'a' = [0x61] := by decide
  simp [utf8, this]

theorem split_trimmed : Trimmed (utf8 splitChars) := by
  unfold splitChars
  refine trimmed_of_accent_end _ (0x61 :: utf8 (List.replicate 1999 '\u00e9')) _ 0x61
    (utf8_cons_a _) ?_ (by decide)
  rw [utf8_cons_a, utf8_accent_snoc 1999]
  rfl

theorem accumulatedText_paragraphDoc (text : GoString) (ht : Trimmed text) :
    accumulatedText (paragraphDoc text) = text := by
  have h1 : TrimSpace text = text := TrimSpace_of_trimmed ht.2.1 ht.2.2
  rw [accumulatedText_eq]
  have hv : visibleTexts (paragraphDoc text) = [text] := by
    have e1 : isSkip (lit "html") = false := by decide
    have e2 : isSkip (lit "body") = false := by decide
    have e3 : isSkip (lit "p") = false := by decide
    have e4 : isSkip (lit "head") = false := by decide
    simp [paragraphDoc, visibleTexts, visibleTextsOfList, h1, ht.1, e1, e2, e3, e4]
  rw [hv]
  rfl

theorem accumulatedText_accentDoc : accumulatedText accentDoc = utf8 accentChars :=
  accumulatedText_paragraphDoc _ (accent_trimmed 2000)

theorem accumulatedText_splitDoc : accumulatedText splitDoc = utf8 splitChars :=
  accumulatedText_paragraphDoc _ split_trimmed

/-! ## Claims on `ExtractArticleText` -/

/-- C1: for every tree, the text `ExtractArticleText` has accumulated before the
length cap is the join, with exactly one space, of the trimmed contents of the
text nodes outside boilerplate subtrees that are non-empty after trimming, in
document order; each joined text is itself trimmed, so single spaces separate
them, and the whole has no leading or trailing white space.  The function
returns that text cut to its first 4000 bytes, or failure when it is empty. -/
theorem C1_accumulated_text_is_join (doc : Node) :
    accumulatedText doc = Join (visibleTexts doc) (lit " ") ∧
    (∀ t ∈ visibleTexts doc, Trimmed t) ∧
    leadingSpace (accumulatedText doc) = none ∧
    trailingSpace (accumulatedText doc) = none ∧
    (∀ (Parse : GoString → Option Node) (htmlStr : GoString), Parse htmlStr = some doc →
      ExtractArticleText Parse htmlStr =
        if Join (visibleTexts doc) (lit " ") = [] then ([], false)
        else ((Join (visibleTexts doc) (lit " ")).take 4000, true)) := by
  have he := accumulatedText_eq doc
  have hends := Join_trimmed_ends _ (visibleTexts_trimmed doc)
  refine ⟨he, visibleTexts_trimmed doc, ?_, ?_, ?_⟩
  · rw [he, lit_space]; exact hends.1
  · rw [he, lit_space]; exact hends.2
  · intro Parse htmlStr hp
    rw [ExtractArticleText_of_parse hp, he]

theorem C1_witness :
    ExtractArticleText scenarioParse scenarioMarkup =
      if Join (visibleTexts scenarioDoc) (lit " ") = [] then ([], false)
      else ((Join (visibleTexts scenarioDoc) (lit " ")).take 4000, true) :=
  (C1_accumulated_text_is_join scenarioDoc).2.2.2.2 scenarioParse scenarioMarkup
    (by simp [scenarioParse])

/-- C2: when one input parses to a tree and another to the same tree with every
subtree rooted at a `script`, `style`, `nav`, `header`, `footer` or `aside`
element below the root removed, `ExtractArticleText` returns the same text and
the same flag on both; the pruned tree has no such element left below its
root, and the texts that reach the output are those of the pruned tree.  The
traversal of an element with one of the six tags writes nothing, whatever it
holds and at whatever depth, and the six tags are the only ones skipped. -/
theorem C2_boilerplate_subtrees_ignored (Parse Parse2 : GoString → Option Node)
    (htmlStr htmlStr2 : GoString) (doc : Node)
    (h : Parse htmlStr = some doc) (h2 : Parse2 htmlStr2 = some (prune doc)) :
    ExtractArticleText Parse htmlStr = ExtractArticleText Parse2 htmlStr2 ∧
    hasBoilerplateBelow (prune doc) = false ∧
    visibleTexts (prune doc) = visibleTexts doc ∧
    (∀ tag ∈ [lit "script", lit "style", lit "nav", lit "header", lit "footer", lit "aside"],
      ∀ (children : List Node) (skip : Bool) (buf : GoString),
        dfs (Node.mk NodeType.ElementNode tag children) skip buf = buf) ∧
    (∀ tag : GoString, isSkip tag = true ↔
      tag ∈ [lit "script", lit "style", lit "nav", lit "header", lit "footer", lit "aside"]) := by
  refine ⟨?_, hasBoilerplateBelow_prune doc, visibleTexts_prune doc, ?_, isSkip_iff⟩
  · rw [ExtractArticleText_of_parse h, ExtractArticleText_of_parse h2, accumulatedText_prune]
  · intro tag htag children skip buf
    exact dfs_boilerplate tag children skip buf htag

theorem C2_witness :
    (ExtractArticleText (fun _ => some boilerDoc) [] =
        ExtractArticleText (fun _ => some (prune boilerDoc)) [] ∧
      hasBoilerplateBelow (prune boilerDoc) = false ∧
      visibleTexts (prune boilerDoc) = visibleTexts boilerDoc ∧
      (∀ tag ∈ [lit "script", lit "style", lit "nav", lit "header", lit "footer", lit "aside"],
        ∀ (children : List Node) (skip : Bool) (buf : GoString),
          dfs (Node.mk NodeType.ElementNode tag children) skip buf = buf) ∧
      (∀ tag : GoString, isSkip tag = true ↔
        tag ∈ [lit "script", lit "style", lit "nav", lit "header", lit "footer", lit "aside"])) ∧
    ExtractArticleText (fun _ => some boilerDoc) [] = (lit "keep after", true) ∧
    hasBoilerplateBelow boilerDoc = true :=
  ⟨C2_boilerplate_subtrees_ignored (fun _ => some boilerDoc) (fun _ => some (prune boilerDoc))
    [] [] boilerDoc rfl rfl, by decide, by decide⟩

/-- C3: for every tree with at least one visible text whose accumulated text is
at most 4000 bytes long, `ExtractArticleText` returns `ok = true` and a
non-empty text that contains every visible text as a substring; on the tree of
the scenario markup the output contains "Paragraph one." and does not contain
"bad()". -/
theorem C3_visible_texts_in_output :
    (∀ (Parse : GoString → Option Node) (htmlStr : GoString) (doc : Node),
      Parse htmlStr = some doc → visibleTexts doc ≠ [] →
      (accumulatedText doc).length ≤ 4000 →
      (ExtractArticleText Parse htmlStr).2 = true ∧
      (ExtractArticleText Parse htmlStr).1 ≠ [] ∧
      ∀ t ∈ visibleTexts doc, t <:+: (ExtractArticleText Parse htmlStr).1) ∧
    (∀ (Parse : GoString → Option Node) (htmlStr : GoString),
      Parse htmlStr = some scenarioDoc →
      (ExtractArticleText Parse htmlStr).2 = true ∧
      lit "Paragraph one." <:+: (ExtractArticleText Parse htmlStr).1 ∧
      ¬ lit "bad()" <:+: (ExtractArticleText Parse htmlStr).1) := by
  constructor
  · intro Parse htmlStr doc hp hv hcap
    have hne : accumulatedText doc ≠ [] := fun h0 => hv ((accumulatedText_eq_nil_iff doc).mp h0)
    rw [ExtractArticleText_of_parse hp]
    simp only [hne, if_false]
    rw [List.take_of_length_le hcap]
    refine ⟨trivial, hne, ?_⟩
    intro t ht
    rw [accumulatedText_eq]
    exact isInfix_Join _ _ _ ht
  · intro Parse htmlStr hp
    rw [ExtractArticleText_of_parse hp]
    have h1 : accumulatedText scenarioDoc = lit "T Paragraph one." := by decide
    rw [h1]
    decide

theorem C3_witness :
    (ExtractArticleText scenarioParse scenarioMarkup).2 = true ∧
    (ExtractArticleText scenarioParse scenarioMarkup).1 ≠ [] ∧
    ∀ t ∈ visibleTexts scenarioDoc, t <:+: (ExtractArticleText scenarioParse scenarioMarkup).1 :=
  C3_visible_texts_in_output.1 scenarioParse scenarioMarkup scenarioDoc
    (by simp [scenarioParse]) (by decide) (by decide)

/-- C4: `ExtractArticleText` never returns `ok = true` with an empty text; on a
parsed tree it returns `("", false)` exactly when the trimmed accumulator is
empty, which is exactly when the tree has no visible text, and it reports
`ok = false` in no other case. -/
theorem C4_failure_iff_nothing_extracted (Parse : GoString → Option Node) (htmlStr : GoString) :
    ((ExtractArticleText Parse htmlStr).2 = true → (ExtractArticleText Parse htmlStr).1 ≠ []) ∧
    (∀ doc : Node, Parse htmlStr = some doc →
      (ExtractArticleText Parse htmlStr = ([], false) ↔ accumulatedText doc = []) ∧
      ((ExtractArticleText Parse htmlStr).2 = false ↔ accumulatedText doc = []) ∧
      (accumulatedText doc = [] ↔ visibleTexts doc = [])) := by
  constructor
  · cases hp : Parse htmlStr with
    | none => simp [ExtractArticleText, hp]
    | some doc =>
      rw [ExtractArticleText_of_parse hp]
      by_cases h0 : accumulatedText doc = []
      · simp [h0]
      · simp only [h0, if_false]
        intro _ h1
        have := congrArg List.length h1
        have hpos : 0 < (accumulatedText doc).length := List.length_pos.mpr h0
        simp only [List.length_take, List.length_nil] at this
        omega
  · intro doc hp
    rw [ExtractArticleText_of_parse hp]
    refine ⟨?_, ?_, accumulatedText_eq_nil_iff doc⟩
    · by_cases h0 : accumulatedText doc = []
      · simp [h0]
      · simp [h0]
    · by_cases h0 : accumulatedText doc = []
      · simp [h0]
      · simp [h0]

theorem C4_witness :
    (ExtractArticleText scenarioParse scenarioMarkup = ([], false) ↔
      accumulatedText scenarioDoc = []) ∧
    ((ExtractArticleText scenarioParse scenarioMarkup).2 = false ↔
      accumulatedText scenarioDoc = []) ∧
    (accumulatedText scenarioDoc = [] ↔ visibleTexts scenarioDoc = []) :=
  (C4_failure_iff_nothing_extracted scenarioParse scenarioMarkup).2 scenarioDoc
    (by simp [scenarioParse])

/-- What the cap of `ExtractArticleText` does: on success the returned text is
the first 4000 bytes of the trimmed accumulated text. -/
theorem ExtractArticleText_cap (Parse : GoString → Option Node) (htmlStr : GoString)
    (doc : Node) (hp : Parse htmlStr = some doc)
    (hok : (ExtractArticleText Parse htmlStr).2 = true) :
    (ExtractArticleText Parse htmlStr).1.length ≤ 4000 ∧
    (ExtractArticleText Parse htmlStr).1 = (accumulatedText doc).take 4000 := by
  rw [ExtractArticleText_of_parse hp] at hok ⊢
  by_cases h0 : accumulatedText doc = []
  · simp [h0] at hok
  · simp only [h0, if_false]
    refine ⟨?_, trivial⟩
    simp only [List.length_take]
    omega

/-- C5, the code at two texts of 2001 characters, fewer than the cap.  For a
paragraph of 2001 letters U+00E9 the extraction succeeds and returns only the
first 2000 of them, not the whole accumulated text.  For a paragraph of the
letter `a` and 2000 letters U+00E9 it succeeds and returns `a`, 1999 letters
and the lone byte 0xC3, the first half of the next letter: the cut counts
bytes and falls inside a character. -/
theorem C5_cap_cuts_bytes_not_characters :
    accentChars.length = 2001 ∧
    accumulatedText accentDoc = utf8 accentChars ∧
    ExtractArticleText (fun _ => some accentDoc) accentMarkup =
      (utf8 (List.replicate 2000 '\u00e9'), true) ∧
    utf8 (List.replicate 2000 '\u00e9') ≠ utf8 accentChars ∧
    splitChars.length = 2001 ∧
    accumulatedText splitDoc = utf8 splitChars ∧
    ExtractArticleText (fun _ => some splitDoc) splitMarkup =
      (utf8 ('a' :: List.replicate 1999 '\u00e9') ++ [0xC3], true) := by
  have hacc := accumulatedText_accentDoc
  have hsp := accumulatedText_splitDoc
  have hl2000 : (utf8 (List.replicate 2000 '\u00e9')).length = 4000 := by
    rw [utf8_replicate_length, accent_bytes]
    rfl
  have hl2001 : (utf8 accentChars).length = 4002 := by
    unfold accentChars
    rw [utf8_replicate_length, accent_bytes]
    rfl
  have hne : utf8 accentChars ≠ [] := by
    intro h
    have hlen := congrArg List.length h
    rw [hl2001, List.length_nil] at hlen
    omega
  have h2 : utf8 accentChars = utf8 (List.replicate 2000 '\u00e9') ++ [0xC3, 0xA9] :=
    utf8_accent_snoc 2000
  have hsplit : utf8 splitChars =
      (utf8 ('a' :: List.replicate 1999 '\u00e9') ++ [0xC3]) ++ [0xA9] := by
    unfold splitChars
    rw [utf8_cons_a, utf8_cons_a, utf8_accent_snoc 1999]
    simp only [List.cons_append, List.append_assoc, List.nil_append]
  have hl1999 : (utf8 ('a' :: List.replicate 1999 '\u00e9') ++ [0xC3]).length = 4000 := by
    rw [utf8_cons_a, List.length_append, List.length_cons, utf8_replicate_length, accent_bytes]
    rfl
  have hne2 : utf8 splitChars ≠ [] := by
    rw [hsplit]
    exact List.append_ne_nil_of_right_ne_nil _ (List.cons_ne_nil _ _)
  refine ⟨List.length_replicate _ _, hacc, ?_, ?_, ?_, hsp, ?_⟩
  · rw [@ExtractArticleText_of_parse (fun _ => some accentDoc) accentMarkup accentDoc rfl, hacc]
    simp only [hne, if_false]
    rw [h2, List.take_left' hl2000]
  · intro h
    have := congrArg List.length h
    rw [hl2000, hl2001] at this
    omega
  · unfold splitChars
    rw [List.length_cons, List.length_replicate]
  · rw [@ExtractArticleText_of_parse (fun _ => some splitDoc) splitMarkup splitDoc rfl, hsp]
    simp only [hne2, if_false]
    rw [hsplit, List.take_left' hl1999]

/-! ## The prompt -/

theorem Sprintf_verb (rest x : GoString) (xs : List GoString) :
    Sprintf (0x25 :: 0x73 :: rest) (x :: xs) = x ++ Sprintf rest xs := by
  rw [Sprintf]
  simp

theorem Sprintf_literal (pre rest : GoString) (args : List GoString)
    (h : ∀ b ∈ pre, b ≠ 0x25) (hr : rest ≠ []) :
    Sprintf (pre ++ rest) args = pre ++ Sprintf rest args := by
  induction pre with
  | nil => rfl
  | cons a pre2 ih =>
    have ha : a ≠ 0x25 := h a (by simp)
    have ih2 := ih (fun b hb => h b (List.mem_cons_of_mem _ hb))
    obtain ⟨c, tl, hc⟩ : ∃ c tl, pre2 ++ rest = c :: tl := by
      cases hpr : pre2 ++ rest with
      | nil => simp [hr] at hpr
      | cons c tl => exact ⟨c, tl, rfl⟩
    rw [List.cons_append, hc]
    simp only [Sprintf, ha, false_and, if_false]
    rw [← hc, ih2]
    rfl

theorem format_split :
    lit "Summarize the following news article in 2-3 sentences, focusing on the key facts. Title: %s; URL: %s; Content: %s"
      = lit "Summarize the following news article in 2-3 sentences, focusing on the key facts. Title: "
        ++ (0x25 :: 0x73 :: (lit "; URL: " ++ (0x25 :: 0x73 :: (lit "; Content: " ++ [0x25, 0x73])))) := by
  decide

theorem BuildSummaryPrompt_eq (title url text : GoString) :
    BuildSummaryPrompt title url text =
      lit "Summarize the following news article in 2-3 sentences, focusing on the key facts. Title: "
        ++ title ++ lit "; URL: " ++ url ++ lit "; Content: " ++ text := by
  unfold BuildSummaryPrompt
  rw [format_split, Sprintf_literal _ _ _ (by decide) (by simp), Sprintf_verb,
    Sprintf_literal _ _ _ (by decide) (by simp), Sprintf_verb,
    Sprintf_literal _ _ _ (by decide) (by simp), Sprintf_verb]
  simp [Sprintf]

/-- C8: for all strings `title`, `url` and `text`, `BuildSummaryPrompt` returns
the fixed template with the three arguments inserted in that order; the result
is non-empty and contains each argument as a substring. -/
theorem C8_prompt_template (title url text : GoString) :
    BuildSummaryPrompt title url text =
      lit "Summarize the following news article in 2-3 sentences, focusing on the key facts. Title: "
        ++ title ++ lit "; URL: " ++ url ++ lit "; Content: " ++ text ∧
    BuildSummaryPrompt title url text ≠ [] ∧
    title <:+: BuildSummaryPrompt title url text ∧
    url <:+: BuildSummaryPrompt title url text ∧
    text <:+: BuildSummaryPrompt title url text := by
  have h := BuildSummaryPrompt_eq title url text
  refine ⟨h, ?_, ?_, ?_, ?_⟩
  · rw [h]
    have : lit "Summarize the following news article in 2-3 sentences, focusing on the key facts. Title: " ≠ [] := by
      decide
    simp [this]
  · rw [h]
    exact ⟨lit "Summarize the following news article in 2-3 sentences, focusing on the key facts. Title: ",
      lit "; URL: " ++ url ++ lit "; Content: " ++ text, by simp⟩
  · rw [h]
    exact ⟨lit "Summarize the following news article in 2-3 sentences, focusing on the key facts. Title: "
      ++ title ++ lit "; URL: ", lit "; Content: " ++ text, by simp⟩
  · rw [h]
    exact (List.suffix_append _ _).isInfix

/-! ## The Summarize stage -/

set_option maxRecDepth 100000 in
/-- C9, the code at a record with a title: the prompt `CreateSummary` sends to
the generation client is built with the empty string as title, so it differs
from `BuildSummaryPrompt(record.Title, record.Link, prose)` and does not
contain the record's title. -/
theorem C9_prompt_leaves_title_out :
    (CreateSummary sampleWorld (lit "llama3") (lit "data") sampleRecord).1 =
      [Call.ReadFile (lit "data/654a1b2c3d4e5f60718293a4.html"),
       Call.Generate (lit "llama3")
         (BuildSummaryPrompt (lit "") sampleRecord.Link (lit "T Paragraph one.")),
       Call.UpdateOne sampleRecord.ID (lit "A short summary.")] ∧
    BuildSummaryPrompt (lit "") sampleRecord.Link (lit "T Paragraph one.") ≠
      BuildSummaryPrompt sampleRecord.Title sampleRecord.Link (lit "T Paragraph one.") ∧
    ¬ sampleRecord.Title <:+:
      BuildSummaryPrompt (lit "") sampleRecord.Link (lit "T Paragraph one.") := by
  refine ⟨?_, ?_, ?_⟩
  · decide
  · decide
  · decide

/-- C10: whenever the stored content is read, the prompt sent to the generation
client carries as prose the text `ExtractArticleText` returned when it returned
`ok = true` with a non-empty text, and `StripHTMLToPlainText` of the same
content otherwise. -/
theorem C10_fallback_only_on_failure (w : Collaborators) (model dataDir : GoString)
    (feedItemDoc : FeedItemDocument) (htmlContent : GoString)
    (h : w.ReadFile (w.filepathJoin dataDir (Hex feedItemDoc.ID ++ lit ".html")) =
      Except.ok htmlContent) :
    ∃ rest : List Call,
      (CreateSummary w model dataDir feedItemDoc).1 =
        Call.ReadFile (w.filepathJoin dataDir (Hex feedItemDoc.ID ++ lit ".html")) ::
        Call.Generate model
          (BuildSummaryPrompt (lit "") feedItemDoc.Link
            (if (ExtractArticleText w.Parse htmlContent).2 = true ∧
                (ExtractArticleText w.Parse htmlContent).1 ≠ []
              then (ExtractArticleText w.Parse htmlContent).1
              else StripHTMLToPlainText htmlContent)) :: rest := by
  have hprose :
      (if (ExtractArticleText w.Parse htmlContent).2 = false ∨
          (ExtractArticleText w.Parse htmlContent).1.length = 0
        then StripHTMLToPlainText htmlContent
        else (ExtractArticleText w.Parse htmlContent).1) =
      (if (ExtractArticleText w.Parse htmlContent).2 = true ∧
          (ExtractArticleText w.Parse htmlContent).1 ≠ []
        then (ExtractArticleText w.Parse htmlContent).1
        else StripHTMLToPlainText htmlContent) := by
    by_cases h1 : (ExtractArticleText w.Parse htmlContent).2 = true
    · by_cases h2 : (ExtractArticleText w.Parse htmlContent).1 = []
      · simp [h1, h2]
      · simp [h1, h2]
    · simp [h1]
  unfold CreateSummary
  simp only [h, hprose]
  split
  · exact ⟨_, rfl⟩
  · split
    · exact ⟨_, rfl⟩
    · exact ⟨_, rfl⟩

theorem C10_witness :
    ∃ rest : List Call,
      (CreateSummary sampleWorld (lit "llama3") (lit "data") sampleRecord).1 =
        Call.ReadFile (sampleWorld.filepathJoin (lit "data") (Hex sampleRecord.ID ++ lit ".html")) ::
        Call.Generate (lit "llama3")
          (BuildSummaryPrompt (lit "") sampleRecord.Link
            (if (ExtractArticleText sampleWorld.Parse scenarioMarkup).2 = true ∧
                (ExtractArticleText sampleWorld.Parse scenarioMarkup).1 ≠ []
              then (ExtractArticleText sampleWorld.Parse scenarioMarkup).1
              else StripHTMLToPlainText scenarioMarkup)) :: rest :=
  C10_fallback_only_on_failure sampleWorld (lit "llama3") (lit "data") sampleRecord
    scenarioMarkup rfl

/-! ## Fields -/

theorem spaceEnc_prefix_free :
    ∀ e ∈ spaceEncodings, ∀ f ∈ spaceEncodings, f <+: e → f = e := by decide

theorem spaceEnc_head_not_in_tail :
    ∀ e ∈ spaceEncodings, ∀ f ∈ spaceEncodings, ∀ h ∈ e.head?, h ∉ f.tail := by decide

theorem leadingSpace_unique {s e f : GoString} (h : leadingSpace s = some e)
    (hf : f ∈ spaceEncodings) (hp : f <+: s) : f = e := by
  have ⟨he, hpe⟩ := leadingSpace_some h
  rcases List.prefix_or_prefix_of_prefix hp hpe with h1 | h1
  · exact spaceEnc_prefix_free e he f hf h1
  · exact (spaceEnc_prefix_free f hf e he h1).symm

theorem leadingSpace_of_mem {s e : GoString} (he : e ∈ spaceEncodings) (hp : e <+: s) :
    leadingSpace s = some e := by
  cases h : leadingSpace s with
  | none => exact absurd hp (leadingSpace_none.mp h e he)
  | some f => rw [leadingSpace_unique h he hp]

theorem leadingSpace_length_pos {s e : GoString} (h : leadingSpace s = some e) :
    0 < e.length ∧ e.length ≤ s.length := by
  have ⟨he, hp⟩ := leadingSpace_some h
  exact ⟨List.length_pos.mpr (spaceEnc_ne_nil e he), hp.length_le⟩

theorem leadingSpace_split {s e : GoString} (h : leadingSpace s = some e) :
    s = e ++ s.drop e.length := by
  obtain ⟨r, hr⟩ := (leadingSpace_some h).2
  subst hr
  simp

theorem fieldsAux_fuel (n m : Nat) (s cur : GoString) (hn : s.length ≤ n) (hm : s.length ≤ m) :
    fieldsAux n s cur = fieldsAux m s cur := by
  induction n generalizing m s cur with
  | zero =>
    have : s = [] := List.length_eq_zero.mp (Nat.le_zero.mp hn)
    subst this
    cases m <;> rfl
  | succ k ih =>
    cases s with
    | nil => cases m <;> rfl
    | cons b rest =>
      cases m with
      | zero => simp at hm
      | succ j =>
        simp only [fieldsAux]
        cases hl : leadingSpace (b :: rest) with
        | none =>
          simp only
          exact ih j rest _ (by simpa using hn) (by simpa using hm)
        | some e =>
          simp only
          have hpos := leadingSpace_length_pos hl
          have hd : ((b :: rest).drop e.length).length ≤ k := by
            simp only [List.length_drop, List.length_cons] at hn ⊢
            omega
          have hd2 : ((b :: rest).drop e.length).length ≤ j := by
            simp only [List.length_drop, List.length_cons] at hm ⊢
            omega
          rw [ih j _ _ hd hd2]

/-- At the end of the string the field being read is finished. -/
theorem fieldsFrom_nil (cur : GoString) : fieldsAux ([] : GoString).length [] cur = flush cur := rfl

theorem fieldsFrom_byte {b : UInt8} {rest : GoString} (cur : GoString)
    (h : leadingSpace (b :: rest) = none) :
    fieldsAux (b :: rest).length (b :: rest) cur = fieldsAux rest.length rest (cur ++ [b]) := by
  simp only [List.length_cons, fieldsAux, h]

theorem fieldsFrom_space {s e : GoString} (cur : GoString) (h : leadingSpace s = some e) :
    fieldsAux s.length s cur =
      flush cur ++ fieldsAux (s.drop e.length).length (s.drop e.length) [] := by
  cases s with
  | nil => simp [leadingSpace_nil] at h
  | cons b rest =>
    have hpos := leadingSpace_length_pos h
    simp only [List.length_cons, fieldsAux, h]
    congr 1
    apply fieldsAux_fuel
    · simp only [List.length_drop, List.length_cons]; omega
    · exact Nat.le_refl _

theorem fields_induction {motive : GoString → GoString → Prop}
    (nil : ∀ cur, motive [] cur)
    (byte : ∀ b rest cur, leadingSpace (b :: rest) = none →
      motive rest (cur ++ [b]) → motive (b :: rest) cur)
    (space : ∀ e s cur, leadingSpace s = some e →
      motive (s.drop e.length) [] → motive s cur) :
    ∀ s cur, motive s cur := by
  suffices h : ∀ (n : Nat) (s : GoString), s.length ≤ n → ∀ cur, motive s cur from
    fun s cur => h s.length s (Nat.le_refl _) cur
  intro n
  induction n with
  | zero =>
    intro s hs cur
    have : s = [] := List.length_eq_zero.mp (Nat.le_zero.mp hs)
    subst this
    exact nil cur
  | succ k ih =>
    intro s hs cur
    cases hl : leadingSpace s with
    | some e =>
      have hpos := leadingSpace_length_pos hl
      exact space e s cur hl
        (ih (s.drop e.length) (by simp only [List.length_drop]; omega) [])
    | none =>
      cases s with
      | nil => exact nil cur
      | cons b rest =>
        exact byte b rest cur hl (ih rest (by simpa using hs) _)

theorem Fields_trimLeftAux (fuel : Nat) (s : GoString) :
    Fields (trimLeftAux fuel s) = Fields s := by
  induction fuel generalizing s with
  | zero => rfl
  | succ n ih =>
    unfold trimLeftAux
    split
    · rename_i e he
      rw [ih]
      unfold Fields
      rw [fieldsFrom_space [] he]
      rfl
    · rfl

theorem leadingSpace_append_enc {y e : GoString} (he : e ∈ spaceEncodings) (hy : y ≠ []) :
    leadingSpace (y ++ e) = leadingSpace y := by
  cases hl : leadingSpace y with
  | some f =>
    have ⟨hf, hp⟩ := leadingSpace_some hl
    exact leadingSpace_of_mem hf (hp.trans (List.prefix_append _ _))
  | none =>
    rw [leadingSpace_none] at hl ⊢
    intro f hf hp
    by_cases hlen : f.length ≤ y.length
    · exact hl f hf (List.prefix_of_prefix_length_le hp (List.prefix_append _ _) hlen)
    · have hyf : y <+: f :=
        List.prefix_of_prefix_length_le (List.prefix_append _ _) hp (by omega)
      obtain ⟨r, hr⟩ := hyf
      subst hr
      have hre : r <+: e := (List.prefix_append_right_inj y).mp hp
      have hrne : r ≠ [] := by
        intro h0; subst h0; simp at hlen
      obtain ⟨c, r2, rfl⟩ := List.exists_cons_of_ne_nil hrne
      obtain ⟨c2, y2, rfl⟩ := List.exists_cons_of_ne_nil hy
      obtain ⟨z, hz⟩ := hre
      have hhead : e.head? = some c := by rw [← hz]; rfl
      exact spaceEnc_head_not_in_tail e he _ hf c (by simp [hhead]) (by simp)

theorem fieldsFrom_append_enc {e : GoString} (he : e ∈ spaceEncodings) :
    ∀ x cur : GoString,
      fieldsAux (x ++ e).length (x ++ e) cur = fieldsAux x.length x cur := by
  refine fields_induction ?_ ?_ ?_
  · intro cur
    have hl : leadingSpace e = some e := leadingSpace_of_mem he (List.prefix_refl _)
    rw [List.nil_append, fieldsFrom_space cur hl]
    simp [fieldsAux, flush]
  · intro b rest cur hl ih
    have hl2 : leadingSpace (b :: (rest ++ e)) = none := by
      rw [← List.cons_append, leadingSpace_append_enc he (by simp), hl]
    rw [List.cons_append, fieldsFrom_byte cur hl2, fieldsFrom_byte cur hl, ih]
  · intro f s cur hl ih
    have hs : s ≠ [] := by
      intro h0; subst h0; simp [leadingSpace_nil] at hl
    have hl2 : leadingSpace (s ++ e) = some f := by
      rw [leadingSpace_append_enc he hs, hl]
    have hpos := leadingSpace_length_pos hl
    rw [fieldsFrom_space cur hl2, fieldsFrom_space cur hl, List.drop_append_of_le_length hpos.2, ih]

theorem Fields_trimRightAux (fuel : Nat) (s : GoString) :
    Fields (trimRightAux fuel s) = Fields s := by
  induction fuel generalizing s with
  | zero => rfl
  | succ n ih =>
    unfold trimRightAux
    split
    · rename_i e he
      have ⟨hm, hs⟩ := trailingSpace_some he
      obtain ⟨x, hx⟩ := hs
      subst hx
      rw [ih]
      simp only [List.length_append, Nat.add_sub_cancel, List.take_left']
      unfold Fields
      rw [fieldsFrom_append_enc hm]
    · rfl

theorem Fields_TrimSpace (s : GoString) : Fields (TrimSpace s) = Fields s := by
  unfold TrimSpace TrimRight TrimLeft
  rw [Fields_trimRightAux, Fields_trimLeftAux]

theorem StripHTMLToPlainText_eq (htmlStr : GoString) :
    StripHTMLToPlainText htmlStr =
      Join (Fields (ReplaceAllString htmlStr (lit " "))) (lit " ") := by
  unfold StripHTMLToPlainText
  simp only [Fields_TrimSpace]

theorem SpaceFree.trimmed {f : GoString} (h : SpaceFree f) (hne : f ≠ []) : Trimmed f := by
  refine ⟨hne, ?_, ?_⟩
  · rw [leadingSpace_none]
    exact fun e he hp => h e he hp.isInfix
  · rw [trailingSpace_none]
    exact fun e he hp => h e he hp.isInfix

/-- While a field is read, no white-space rune starts inside what has been read. -/
theorem fieldsFrom_spaceFree :
    ∀ s cur : GoString,
      (∀ A C : GoString, cur = A ++ C → C ≠ [] → leadingSpace (C ++ s) = none) →
      ∀ f ∈ fieldsAux s.length s cur, f ≠ [] ∧ SpaceFree f := by
  have key : ∀ s cur : GoString,
      (∀ A C : GoString, cur = A ++ C → C ≠ [] → leadingSpace (C ++ s) = none) →
      ∀ f ∈ flush cur, f ≠ [] ∧ SpaceFree f := by
    intro s cur inv f hf
    unfold flush at hf
    split at hf
    · simp at hf
    · rename_i hne
      simp only [List.mem_singleton] at hf
      subst hf
      refine ⟨hne, ?_⟩
      intro e he hin
      obtain ⟨A, B, hAB⟩ := hin
      have h1 := inv A (e ++ B) (by rw [← hAB]; simp) (by simp [spaceEnc_ne_nil e he])
      rw [leadingSpace_none] at h1
      exact h1 e he ⟨B ++ s, by simp⟩
  refine fields_induction ?_ ?_ ?_
  · intro cur inv f hf
    exact key [] cur inv f hf
  · intro b rest cur hl ih inv f hf
    rw [fieldsFrom_byte cur hl] at hf
    refine ih ?_ f hf
    intro A C hAC hC
    rcases List.eq_nil_or_concat C with h0 | ⟨C2, c, hc⟩
    · exact absurd h0 hC
    · rw [List.concat_eq_append] at hc
      subst hc
      rw [← List.append_assoc] at hAC
      have hinj := List.append_inj' hAC rfl
      have hcb : c = b := by simpa using hinj.2.symm
      subst hcb
      by_cases h2 : C2 = []
      · subst h2
        simpa using hl
      · have := inv A C2 hinj.1 h2
        simpa using this
  · intro e s cur hl ih inv f hf
    rw [fieldsFrom_space cur hl] at hf
    rcases List.mem_append.mp hf with h | h
    · exact key s cur inv f h
    · exact ih (fun A C hAC hC => by
        have : C = [] := by
          have := congrArg List.length hAC
          simp at this
          exact List.length_eq_zero.mp (by omega)
        exact absurd this hC) f h

theorem Fields_spaceFree (s : GoString) : ∀ f ∈ Fields s, f ≠ [] ∧ SpaceFree f :=
  fieldsFrom_spaceFree s [] (fun A C hAC hC => by
    have : C = [] := by
      have := congrArg List.length hAC
      simp at this
      exact List.length_eq_zero.mp (by omega)
    exact absurd this hC)

theorem enc_starts_with_space {e B J : GoString} (he : e ∈ spaceEncodings)
    (h : e ++ B = 0x20 :: J) : e = [0x20] ∧ B = J := by
  obtain ⟨c, e2, rfl⟩ := List.exists_cons_of_ne_nil (spaceEnc_ne_nil e he)
  simp only [List.cons_append, List.cons.injEq] at h
  obtain ⟨hc, h2⟩ := h
  subst hc
  have := spaceEnc_ascii _ he 0x20 (by simp) (by decide)
  simp only [List.cons.injEq, true_and] at this
  subst this
  exact ⟨rfl, by simpa using h2⟩

/-- In a join of space-free fields the only white-space runes are the
separators, and a field follows each of them. -/
theorem space_in_Join (fs : List GoString) (hfs : ∀ f ∈ fs, f ≠ [] ∧ SpaceFree f) :
    ∀ (A e B : GoString), e ∈ spaceEncodings → A ++ e ++ B = Join fs [0x20] →
      e = [0x20] ∧ ∃ g gs, B = Join (g :: gs) [0x20] ∧ ∀ f ∈ g :: gs, f ∈ fs := by
  induction fs with
  | nil =>
    intro A e B he h
    have := spaceEnc_ne_nil e he
    simp [Join, this] at h
  | cons f rest ih =>
    intro A e B he h
    cases rest with
    | nil =>
      exact absurd ⟨A, B, h⟩ ((hfs f (by simp)).2 e he)
    | cons g rest2 =>
      have ih2 := ih (fun x hx => hfs x (List.mem_cons_of_mem _ hx))
      rw [Join_cons_cons] at h
      have h' : (A ++ e) ++ B = f ++ (0x20 :: Join (g :: rest2) [0x20]) := by simpa using h
      rcases List.append_eq_append_iff.mp h' with ⟨a1, h1, h2⟩ | ⟨c1, h1, h2⟩
      · exact absurd ⟨A, a1, h1.symm⟩ ((hfs f (by simp)).2 e he)
      · rcases List.append_eq_append_iff.mp h1 with ⟨a2, h3, h4⟩ | ⟨c2, h3, h4⟩
        · -- the rune starts inside `f`
          cases c1 with
          | nil =>
            simp only [List.append_nil] at h4
            subst h4
            exact absurd ⟨A, [], by simpa using h3.symm⟩ ((hfs f (by simp)).2 e he)
          | cons c c1t =>
            simp only [List.cons_append, List.cons.injEq] at h2
            obtain ⟨hc, h2t⟩ := h2
            subst hc
            have hmem : (0x20 : UInt8) ∈ e := by rw [h4]; simp
            have he1 := spaceEnc_ascii e he 0x20 hmem (by decide)
            rw [he1] at h4
            have hlen : ([0x20] : GoString).length = (a2 ++ 0x20 :: c1t).length :=
              congrArg List.length h4
            simp only [List.length_append, List.length_cons, List.length_nil] at hlen
            have ha2 : a2 = [] := List.length_eq_zero.mp (by omega)
            have hc1 : c1t = [] := List.length_eq_zero.mp (by omega)
            subst ha2 hc1
            refine ⟨he1, g, rest2, by simpa using h2t.symm, fun x hx => List.mem_cons_of_mem _ hx⟩
        · -- the rune starts at or after the separator
          subst h4
          cases c2 with
          | nil =>
            have := enc_starts_with_space he (by simpa using h2.symm)
            exact ⟨this.1, g, rest2, this.2, fun x hx => List.mem_cons_of_mem _ hx⟩
          | cons c c2t =>
            simp only [List.cons_append, List.append_assoc, List.cons.injEq] at h2
            obtain ⟨_, h2t⟩ := h2
            have := ih2 c2t e B he (by rw [h2t]; simp)
            obtain ⟨h5, g2, gs2, h6, h7⟩ := this
            exact ⟨h5, g2, gs2, h6, fun x hx => List.mem_cons_of_mem _ (h7 x hx)⟩

theorem Join_no_double_space (fs : List GoString) (hfs : ∀ f ∈ fs, f ≠ [] ∧ SpaceFree f) :
    ∀ e1 ∈ spaceEncodings, ∀ e2 ∈ spaceEncodings, ¬ (e1 ++ e2) <:+: Join fs [0x20] := by
  intro e1 he1 e2 he2 hin
  obtain ⟨A, B, hAB⟩ := hin
  obtain ⟨_, g, gs, h2, h3⟩ :=
    space_in_Join fs hfs A e1 (e2 ++ B) he1 (by rw [← hAB]; simp)
  have hg := hfs g (h3 g (by simp))
  have hl := leadingSpace_Join gs hg.1 (hg.2.trimmed hg.1).2.1
  rw [leadingSpace_none] at hl
  exact hl e2 he2 ⟨B, h2⟩

/-! ## Tags -/

theorem afterClose_length {s r : GoString} (h : afterClose s = some r) : r.length < s.length := by
  induction s with
  | nil => simp [afterClose] at h
  | cons b rest ih =>
    rw [afterClose] at h
    split at h
    · simp only [Option.some.injEq] at h
      subst h
      simp
    · have := ih h
      simp only [List.length_cons]
      omega

theorem afterClose_none {s : GoString} (h : afterClose s = none) : (0x3E : UInt8) ∉ s := by
  induction s with
  | nil => simp
  | cons b rest ih =>
    rw [afterClose] at h
    split at h
    · simp at h
    · rename_i hb
      simp only [List.mem_cons, not_or]
      exact ⟨fun h2 => hb h2.symm, ih h⟩

theorem matchTag_length {s r : GoString} (h : matchTag s = some r) : r.length < s.length := by
  cases s with
  | nil => simp [matchTag] at h
  | cons b rest =>
    rw [matchTag] at h
    split at h
    · simp at h
    · have := afterClose_length h
      simp only [List.length_cons]
      omega

theorem replaceAux_mem (repl : GoString) (fuel : Nat) (s : GoString) (c : UInt8)
    (h : c ∈ replaceAux repl fuel s) : c ∈ s ∨ c ∈ repl := by
  induction fuel generalizing s with
  | zero => exact Or.inl h
  | succ n ih =>
    cases s with
    | nil => simp [replaceAux] at h
    | cons b rest =>
      rw [replaceAux] at h
      have hsub : ∀ r : GoString, matchTag rest = some r → ∀ x ∈ r, x ∈ rest := by
        intro r hr x hx
        cases rest with
        | nil => simp [matchTag] at hr
        | cons d rest2 =>
          rw [matchTag] at hr
          split at hr
          · simp at hr
          · have : ∀ (t u : GoString), afterClose t = some u → ∀ x ∈ u, x ∈ t := by
              intro t
              induction t with
              | nil => intro u hu; simp [afterClose] at hu
              | cons a t2 iht =>
                intro u hu x hx
                rw [afterClose] at hu
                split at hu
                · simp only [Option.some.injEq] at hu
                  subst hu
                  exact List.mem_cons_of_mem _ hx
                · exact List.mem_cons_of_mem _ (iht u hu x hx)
            exact List.mem_cons_of_mem _ (this rest2 r hr x hx)
      split at h
      · split at h
        · rename_i after hm
          rcases List.mem_append.mp h with h1 | h1
          · exact Or.inr h1
          · rcases ih _ h1 with h2 | h2
            · exact Or.inl (List.mem_cons_of_mem _ (hsub after hm c h2))
            · exact Or.inr h2
        · rcases List.mem_cons.mp h with h1 | h1
          · exact Or.inl (by rw [h1]; simp)
          · rcases ih _ h1 with h2 | h2
            · exact Or.inl (List.mem_cons_of_mem _ h2)
            · exact Or.inr h2
      · rcases List.mem_cons.mp h with h1 | h1
        · exact Or.inl (by rw [h1]; simp)
        · rcases ih _ h1 with h2 | h2
          · exact Or.inl (List.mem_cons_of_mem _ h2)
          · exact Or.inr h2

theorem Unopened_replaceAux (fuel : Nat) (s : GoString) (h : s.length ≤ fuel) :
    Unopened (replaceAux [0x20] fuel s) := by
  induction fuel generalizing s with
  | zero =>
    have : s = [] := List.length_eq_zero.mp (Nat.le_zero.mp h)
    subst this
    simp [replaceAux, Unopened]
  | succ n ih =>
    cases s with
    | nil => simp [replaceAux, Unopened]
    | cons b rest =>
      have hrest : rest.length ≤ n := by simpa using h
      rw [replaceAux]
      split
      · rename_i hb
        split
        · rename_i after hm
          have := matchTag_length hm
          exact ⟨fun h0 => absurd h0 (by decide), ih after (by omega)⟩
        · rename_i hm
          refine ⟨fun _ => ?_, ih rest hrest⟩
          cases rest with
          | nil =>
            right
            intro hx
            rcases replaceAux_mem _ _ _ _ hx with h1 | h1
            · simp at h1
            · simp at h1
          | cons d rest2 =>
            rw [matchTag] at hm
            split at hm
            · rename_i hd
              left
              subst hd
              cases n with
              | zero => simp at hrest
              | succ k => simp [replaceAux]
            · rename_i hd
              right
              intro hx
              rcases replaceAux_mem _ _ _ _ hx with h1 | h1
              · rcases List.mem_cons.mp h1 with h2 | h2
                · exact hd h2.symm
                · exact afterClose_none hm h2
              · simp at h1
      · rename_i hb
        exact ⟨fun h0 => absurd h0 hb, ih rest hrest⟩

theorem Unopened_suffix (A y : GoString) (h : Unopened (A ++ y)) : Unopened y := by
  induction A with
  | nil => exact h
  | cons a A2 ih => exact ih h.2

theorem Unopened_no_tag {y m : GoString} (h : Unopened y) (hm : TagMatch m) : ¬ m <:+: y := by
  rintro ⟨A, B, hAB⟩
  obtain ⟨body, rfl, hne, hnot⟩ := hm
  have h1 : Unopened (0x3C :: (body ++ [0x3E] ++ B)) := by
    apply Unopened_suffix A
    subst hAB
    simpa using h
  rcases h1.1 rfl with h2 | h2
  · obtain ⟨c, body2, rfl⟩ := List.exists_cons_of_ne_nil hne
    simp only [List.cons_append, List.head?_cons, Option.some.injEq] at h2
    subst h2
    exact hnot (by simp)
  · exact h2 (by simp)

theorem Unopened_transfer (cur X Y : GoString) (h : Unopened (cur ++ X)) (hY : Unopened Y)
    (hmem : (0x3E : UInt8) ∈ Y → (0x3E : UInt8) ∈ X)
    (hhead : X.head? = some 0x3E → Y.head? = some 0x3E) : Unopened (cur ++ Y) := by
  induction cur with
  | nil => exact hY
  | cons c cur2 ih =>
    refine ⟨fun hc => ?_, ih h.2⟩
    rcases h.1 hc with h1 | h1
    · left
      cases cur2 with
      | nil => exact hhead h1
      | cons d cur3 => exact h1
    · right
      intro hx
      rcases List.mem_append.mp hx with h2 | h2
      · exact h1 (List.mem_append_left _ h2)
      · exact h1 (List.mem_append_right _ (hmem h2))

theorem spaceEnc_head_ne_close : ∀ e ∈ spaceEncodings, e.head? ≠ some 0x3E := by decide

theorem Join_flush_append (cur : GoString) (L : List GoString) :
    Join (flush cur ++ L) [0x20] =
      if cur = [] then Join L [0x20]
      else if L = [] then cur else cur ++ 0x20 :: Join L [0x20] := by
  unfold flush
  by_cases hc : cur = []
  · simp [hc]
  · cases L with
    | nil => simp [hc, Join]
    | cons g gs => simp [hc, Join_cons_cons]

theorem Join_fieldsFrom_mem :
    ∀ (s cur : GoString) (c : UInt8), c ∈ Join (fieldsAux s.length s cur) [0x20] →
      c ∈ cur ∨ c ∈ s ∨ c = 0x20 := by
  refine fields_induction ?_ ?_ ?_
  · intro cur c hc
    rw [fieldsFrom_nil] at hc
    have := Join_flush_append cur []
    simp only [List.append_nil] at this
    rw [this] at hc
    by_cases h0 : cur = []
    · simp [h0, Join] at hc
    · simp only [h0, if_false, if_true] at hc
      exact Or.inl hc
  · intro b rest cur hl ih c hc
    rw [fieldsFrom_byte cur hl] at hc
    rcases ih c hc with h | h | h
    · rcases List.mem_append.mp h with h1 | h1
      · exact Or.inl h1
      · right; left
        simp only [List.mem_singleton] at h1
        rw [h1]; simp
    · right; left; exact List.mem_cons_of_mem _ h
    · exact Or.inr (Or.inr h)
  · intro e s cur hl ih c hc
    rw [fieldsFrom_space cur hl, Join_flush_append] at hc
    have hsub : ∀ x ∈ s.drop e.length, x ∈ s := fun x hx => List.mem_of_mem_drop hx
    have hrec : c ∈ Join (fieldsAux (s.drop e.length).length (s.drop e.length) []) [0x20] →
        c ∈ cur ∨ c ∈ s ∨ c = 0x20 := by
      intro h
      rcases ih c h with h1 | h1 | h1
      · simp at h1
      · exact Or.inr (Or.inl (hsub c h1))
      · exact Or.inr (Or.inr h1)
    split at hc
    · exact hrec hc
    · split at hc
      · exact Or.inl hc
      · rcases List.mem_append.mp hc with h1 | h1
        · exact Or.inl h1
        · rcases List.mem_cons.mp h1 with h2 | h2
          · exact Or.inr (Or.inr h2)
          · exact hrec h2

theorem Unopened_Join_fieldsFrom :
    ∀ (s cur : GoString), Unopened (cur ++ s) →
      Unopened (Join (fieldsAux s.length s cur) [0x20]) := by
  refine fields_induction ?_ ?_ ?_
  · intro cur h
    rw [fieldsFrom_nil]
    have := Join_flush_append cur []
    simp only [List.append_nil] at this
    rw [this]
    by_cases h0 : cur = []
    · simp [h0, Join, Unopened]
    · simpa [h0] using h
  · intro b rest cur hl ih h
    rw [fieldsFrom_byte cur hl]
    exact ih (by simpa using h)
  · intro e s cur hl ih h
    have he := (leadingSpace_some hl).1
    have hsplit := leadingSpace_split hl
    have hr : Unopened (s.drop e.length) := by
      apply Unopened_suffix (cur ++ e)
      rw [List.append_assoc, ← hsplit]
      exact h
    have hY0 := ih (by simpa using hr)
    have hhead : s.head? ≠ some 0x3E := by
      rw [hsplit]
      obtain ⟨c, e2, hce⟩ := List.exists_cons_of_ne_nil (spaceEnc_ne_nil e he)
      have := spaceEnc_head_ne_close e he
      rw [hce] at this ⊢
      simpa using this
    have hmem0 : (0x3E : UInt8) ∈
        Join (fieldsAux (s.drop e.length).length (s.drop e.length) []) [0x20] →
        (0x3E : UInt8) ∈ s := by
      intro hx
      rcases Join_fieldsFrom_mem _ _ _ hx with h1 | h1 | h1
      · simp at h1
      · exact List.mem_of_mem_drop h1
      · exact absurd h1 (by decide)
    rw [fieldsFrom_space cur hl, Join_flush_append]
    split
    · exact hY0
    · split
      · have := Unopened_transfer cur s [] h trivial (by simp) (fun h1 => absurd h1 hhead)
        simpa using this
      · exact Unopened_transfer cur s _ h ⟨fun h0 => absurd h0 (by decide), hY0⟩
          (fun hx => by
            rcases List.mem_cons.mp hx with h1 | h1
            · exact absurd h1 (by decide)
            · exact hmem0 h1)
          (fun h1 => absurd h1 hhead)

theorem replaceAux_fuel (repl : GoString) (n m : Nat) (s : GoString)
    (hn : s.length ≤ n) (hm : s.length ≤ m) :
    replaceAux repl n s = replaceAux repl m s := by
  induction n generalizing m s with
  | zero =>
    have : s = [] := List.length_eq_zero.mp (Nat.le_zero.mp hn)
    subst this
    cases m <;> rfl
  | succ k ih =>
    cases s with
    | nil => cases m <;> rfl
    | cons b rest =>
      cases m with
      | zero => simp at hm
      | succ j =>
        have h1 : rest.length ≤ k := by simpa using hn
        have h2 : rest.length ≤ j := by simpa using hm
        simp only [replaceAux]
        split
        · split
          · rename_i after hmt
            have := matchTag_length hmt
            rw [ih j after (by omega) (by omega)]
          · rw [ih j rest h1 h2]
        · rw [ih j rest h1 h2]

theorem ReplaceAllString_cons_match {rest after : GoString} (repl : GoString)
    (h : matchTag rest = some after) :
    ReplaceAllString (0x3C :: rest) repl = repl ++ ReplaceAllString after repl := by
  have hlen := matchTag_length h
  unfold ReplaceAllString
  simp only [List.length_cons, replaceAux, h, if_true]
  rw [replaceAux_fuel repl rest.length after.length after (by omega) (Nat.le_refl _)]

theorem ReplaceAllString_cons_other {b : UInt8} (rest repl : GoString) (h : b ≠ 0x3C) :
    ReplaceAllString (b :: rest) repl = b :: ReplaceAllString rest repl := by
  unfold ReplaceAllString
  simp only [List.length_cons, replaceAux, h, if_false]

theorem ReplaceAllString_skip (pre rest repl : GoString) (h : (0x3C : UInt8) ∉ pre) :
    ReplaceAllString (pre ++ rest) repl = pre ++ ReplaceAllString rest repl := by
  induction pre with
  | nil => rfl
  | cons b pre2 ih =>
    simp only [List.mem_cons, not_or] at h
    rw [List.cons_append, ReplaceAllString_cons_other _ _ (fun hb => h.1 hb.symm), ih h.2]
    rfl

theorem afterClose_append (body post : GoString) (h : (0x3E : UInt8) ∉ body) :
    afterClose (body ++ 0x3E :: post) = some post := by
  induction body with
  | nil => simp [afterClose]
  | cons b body2 ih =>
    simp only [List.mem_cons, not_or] at h
    rw [List.cons_append, afterClose, if_neg (fun hb => h.1 (Eq.symm hb))]
    exact ih h.2

theorem matchTag_of_body (body post : GoString) (hne : body ≠ [])
    (h : (0x3E : UInt8) ∉ body) : matchTag (body ++ 0x3E :: post) = some post := by
  obtain ⟨b, body2, rfl⟩ := List.exists_cons_of_ne_nil hne
  simp only [List.mem_cons, not_or] at h
  rw [List.cons_append, matchTag, if_neg (fun hb => h.1 (Eq.symm hb))]
  exact afterClose_append body2 post h.2

/-- The first `<` of a string that starts a match of `<[^>]+>` is replaced with
its match; what stands before it is kept. -/
theorem ReplaceAllString_match (pre m post repl : GoString)
    (hpre : (0x3C : UInt8) ∉ pre) (hm : TagMatch m) :
    ReplaceAllString (pre ++ m ++ post) repl = pre ++ repl ++ ReplaceAllString post repl := by
  obtain ⟨body, rfl, hne, hnot⟩ := hm
  rw [List.append_assoc, ReplaceAllString_skip _ _ _ hpre]
  have : (0x3C :: body ++ [0x3E]) ++ post = 0x3C :: (body ++ 0x3E :: post) := by simp
  rw [this, ReplaceAllString_cons_match repl (matchTag_of_body body post hne hnot)]
  simp

theorem afterClose_some {s r : GoString} (h : afterClose s = some r) :
    ∃ body : GoString, s = body ++ 0x3E :: r ∧ (0x3E : UInt8) ∉ body := by
  induction s with
  | nil => simp [afterClose] at h
  | cons b rest ih =>
    rw [afterClose] at h
    split at h
    · rename_i hb
      simp only [Option.some.injEq] at h
      subst h hb
      exact ⟨[], rfl, by simp⟩
    · rename_i hb
      obtain ⟨body, h1, h2⟩ := ih h
      refine ⟨b :: body, by rw [h1]; rfl, ?_⟩
      simp only [List.mem_cons, not_or]
      exact ⟨fun h3 => hb h3.symm, h2⟩

theorem matchTag_some {rest after : GoString} (h : matchTag rest = some after) :
    ∃ m : GoString, TagMatch m ∧ 0x3C :: rest = m ++ after := by
  cases rest with
  | nil => simp [matchTag] at h
  | cons b rest2 =>
    rw [matchTag] at h
    split at h
    · simp at h
    · rename_i hb
      obtain ⟨body, h1, h2⟩ := afterClose_some h
      refine ⟨0x3C :: (b :: body) ++ [0x3E], ⟨b :: body, rfl, by simp, ?_⟩, by rw [h1]; simp⟩
      simp only [List.mem_cons, not_or]
      exact ⟨fun h3 => hb h3.symm, h2⟩

/-- A `<` at which no match of `<[^>]+>` starts is kept. -/
theorem ReplaceAllString_no_match (rest repl : GoString)
    (h : ∀ m : GoString, TagMatch m → ¬ m <+: 0x3C :: rest) :
    ReplaceAllString (0x3C :: rest) repl = 0x3C :: ReplaceAllString rest repl := by
  have hm : matchTag rest = none := by
    cases hmt : matchTag rest with
    | none => rfl
    | some after =>
      obtain ⟨m, hm1, hm2⟩ := matchTag_some hmt
      exact absurd ⟨after, hm2.symm⟩ (h m hm1)
  unfold ReplaceAllString
  simp only [List.length_cons, replaceAux, hm, if_true]

/-! ## Claims on `StripHTMLToPlainText` -/

/-- C6: for every input string, `StripHTMLToPlainText` returns the input with
every match of `<[^>]+>` replaced by a space, split on white space and joined
again with single spaces; the result neither starts nor ends with a white-space
rune and has no two adjacent white-space runes; it is empty for the empty
input; for the markup of the test it is "bad Hello World", which contains
"Hello" and "World".  The replacement is the leftmost-first one: text without
`<` is kept, the first `<` that starts a match is replaced together with its
match, and a `<` that starts no match is kept. -/
theorem C6_strip_is_normalised_replacement (htmlStr : GoString) :
    StripHTMLToPlainText htmlStr =
      Join (Fields (ReplaceAllString htmlStr (lit " "))) (lit " ") ∧
    leadingSpace (StripHTMLToPlainText htmlStr) = none ∧
    trailingSpace (StripHTMLToPlainText htmlStr) = none ∧
    (∀ e1 ∈ spaceEncodings, ∀ e2 ∈ spaceEncodings,
      ¬ (e1 ++ e2) <:+: StripHTMLToPlainText htmlStr) ∧
    StripHTMLToPlainText [] = [] ∧
    StripHTMLToPlainText stripTestMarkup = lit "bad Hello World" ∧
    lit "Hello" <:+: StripHTMLToPlainText stripTestMarkup ∧
    lit "World" <:+: StripHTMLToPlainText stripTestMarkup ∧
    (∀ pre m post : GoString, (0x3C : UInt8) ∉ pre → TagMatch m →
      ReplaceAllString (pre ++ m ++ post) (lit " ") =
        pre ++ lit " " ++ ReplaceAllString post (lit " ")) ∧
    (∀ rest : GoString, (∀ m : GoString, TagMatch m → ¬ m <+: 0x3C :: rest) →
      ReplaceAllString (0x3C :: rest) (lit " ") =
        0x3C :: ReplaceAllString rest (lit " ")) ∧
    (∀ s : GoString, (0x3C : UInt8) ∉ s → ReplaceAllString s (lit " ") = s) := by
  have heq := StripHTMLToPlainText_eq htmlStr
  have hfs := Fields_spaceFree (ReplaceAllString htmlStr (lit " "))
  have hends := Join_trimmed_ends _ (fun t ht => (hfs t ht).2.trimmed (hfs t ht).1)
  have htest : StripHTMLToPlainText stripTestMarkup = lit "bad Hello World" := by decide
  refine ⟨heq, ?_, ?_, ?_, by decide, htest, ?_, ?_, ?_, ?_, ?_⟩
  · rw [heq, lit_space]; exact hends.1
  · rw [heq, lit_space]; exact hends.2
  · rw [heq, lit_space]; exact Join_no_double_space _ hfs
  · rw [htest]; decide
  · rw [htest]; decide
  · exact fun pre m post hpre hm => ReplaceAllString_match pre m post _ hpre hm
  · exact fun rest h => ReplaceAllString_no_match rest _ h
  · intro s hs
    have := ReplaceAllString_skip s [] (lit " ") hs
    simpa [ReplaceAllString, replaceAux] using this

/-- C7: for every input string, no substring of the output of
`StripHTMLToPlainText` is a match of `<[^>]+>`, a `<` followed by one or more
bytes other than `>` and a `>`. -/
theorem C7_output_has_no_tag (htmlStr : GoString) :
    ∀ m : GoString, TagMatch m → ¬ m <:+: StripHTMLToPlainText htmlStr := by
  intro m hm
  rw [StripHTMLToPlainText_eq, lit_space]
  refine Unopened_no_tag ?_ hm
  apply Unopened_Join_fieldsFrom _ []
  exact Unopened_replaceAux _ _ (Nat.le_refl _)

theorem C7_witness :
    ¬ lit "<c>" <:+: StripHTMLToPlainText (lit "a <> b <<c>> d < e") :=
  C7_output_has_no_tag (lit "a <> b <<c>> d < e") (lit "<c>")
    ⟨lit "c", by decide, by decide, by decide⟩

/-! ## The retry loop -/

theorem runAttempts_numbers {α : Type} (attempt : Nat → Except GoError α) (k n : Nat) :
    ∃ len, 1 ≤ len ∧ len ≤ k + 1 ∧ (runAttempts attempt k n).1 = List.range' n len := by
  induction k generalizing n with
  | zero => exact ⟨1, Nat.le_refl _, Nat.le_refl _, rfl⟩
  | succ k ih =>
    unfold runAttempts
    split
    · exact ⟨1, Nat.le_refl _, by omega, rfl⟩
    · obtain ⟨len, h1, h2, h3⟩ := ih (n + 1)
      refine ⟨len + 1, by omega, by omega, ?_⟩
      simp only [h3]
      rw [List.range'_succ]

theorem runAttempts_first_success {α : Type} (attempt : Nat → Except GoError α) (v : α)
    (k n j : Nat) (hj : j ≤ k) (hok : attempt (n + j) = .ok v)
    (hfail : ∀ i, i < j → ∃ e, attempt (n + i) = .error e) :
    runAttempts attempt k n = (List.range' n (j + 1), .ok v) := by
  induction k generalizing n j with
  | zero =>
    have : j = 0 := by omega
    subst this
    simp [runAttempts, ← hok]
  | succ k ih =>
    unfold runAttempts
    cases j with
    | zero =>
      rw [Nat.add_zero] at hok
      rw [hok]
      rfl
    | succ j =>
      obtain ⟨e, he⟩ := hfail 0 (by omega)
      rw [Nat.add_zero] at he
      rw [he]
      have := ih (n + 1) j (by omega) (by rw [← hok]; congr 1; omega)
        (fun i hi => by
          obtain ⟨e2, he2⟩ := hfail (i + 1) (by omega)
          exact ⟨e2, by rw [← he2]; congr 1; omega⟩)
      simp only [this]
      rw [List.range'_succ n (j + 1)]

theorem runAttempts_all_fail {α : Type} (attempt : Nat → Except GoError α)
    (k n : Nat) (hfail : ∀ i, i ≤ k → ∃ e, attempt (n + i) = .error e) :
    runAttempts attempt k n = (List.range' n (k + 1), attempt (n + k)) := by
  induction k generalizing n with
  | zero => rfl
  | succ k ih =>
    unfold runAttempts
    obtain ⟨e, he⟩ := hfail 0 (by omega)
    rw [Nat.add_zero] at he
    rw [he]
    have := ih (n + 1) (fun i hi => by
      obtain ⟨e2, he2⟩ := hfail (i + 1) (by omega)
      exact ⟨e2, by rw [← he2]; congr 1; omega⟩)
    simp only [this]
    rw [List.range'_succ n (k + 1)]
    congr 2
    omega

theorem runAttempts_error {α : Type} (attempt : Nat → Except GoError α)
    (k n : Nat) (hfail : ∀ i, ∃ e, attempt i = .error e) :
    ∃ e, (runAttempts attempt k n).2 = .error e := by
  rw [runAttempts_all_fail attempt k n (fun i _ => hfail (n + i))]
  exact hfail (n + k)

theorem attemptsOf_map (s st : Stage) (l : List Nat) :
    ((l.map (fun n => (s, n))).filter (fun a => decide (a.1 = st))).map (fun a => a.2) =
      if s = st then l else [] := by
  induction l with
  | nil => simp
  | cons a l ih =>
    by_cases h : s = st
    · simp only [h, if_true] at ih ⊢
      simp [List.filter_cons, ih]
    · simp only [h, if_false] at ih ⊢
      simp [List.filter_cons, h, ih]

/-! ## The workflow -/

theorem IngestFeedItem_record_fails (acts : Activities) (feedItem : FeedItem) (err : GoError)
    (h : (recordRun acts feedItem).2 = .error err) :
    IngestFeedItem acts feedItem =
      { attempts := tagged Stage.Record (recordRun acts feedItem).1, err := some err } := by
  unfold recordRun at h
  unfold IngestFeedItem
  simp only [h]
  rfl

theorem IngestFeedItem_fetch_fails (acts : Activities) (feedItem : FeedItem)
    (doc : FeedItemDocument) (err : GoError)
    (h : (recordRun acts feedItem).2 = .ok doc) (h2 : (fetchRun acts doc).2 = .error err) :
    IngestFeedItem acts feedItem =
      { attempts := tagged Stage.Record (recordRun acts feedItem).1 ++
          tagged Stage.Fetch (fetchRun acts doc).1, err := some err } := by
  unfold recordRun at h
  unfold fetchRun at h2
  unfold IngestFeedItem
  simp only [h, h2]
  rfl

theorem IngestFeedItem_summarize_fails (acts : Activities) (feedItem : FeedItem)
    (doc : FeedItemDocument) (err : GoError)
    (h : (recordRun acts feedItem).2 = .ok doc) (h2 : (fetchRun acts doc).2 = .ok ())
    (h3 : (summarizeRun acts doc).2 = .error err) :
    IngestFeedItem acts feedItem =
      { attempts := tagged Stage.Record (recordRun acts feedItem).1 ++
          tagged Stage.Fetch (fetchRun acts doc).1 ++
          tagged Stage.Summarize (summarizeRun acts doc).1, err := some err } := by
  unfold recordRun at h
  unfold fetchRun at h2
  unfold summarizeRun at h3
  unfold IngestFeedItem
  simp only [h, h2, h3]
  rfl

theorem IngestFeedItem_all_succeed (acts : Activities) (feedItem : FeedItem)
    (doc : FeedItemDocument)
    (h : (recordRun acts feedItem).2 = .ok doc) (h2 : (fetchRun acts doc).2 = .ok ())
    (h3 : (summarizeRun acts doc).2 = .ok ()) :
    IngestFeedItem acts feedItem =
      { attempts := tagged Stage.Record (recordRun acts feedItem).1 ++
          tagged Stage.Fetch (fetchRun acts doc).1 ++
          tagged Stage.Summarize (summarizeRun acts doc).1, err := none } := by
  unfold recordRun at h
  unfold fetchRun at h2
  unfold summarizeRun at h3
  unfold IngestFeedItem
  simp only [h, h2, h3]
  rfl

/-- The four ways a run can end. -/
theorem IngestFeedItem_cases (acts : Activities) (feedItem : FeedItem) :
    (∃ err, (recordRun acts feedItem).2 = .error err ∧
      IngestFeedItem acts feedItem =
        { attempts := tagged Stage.Record (recordRun acts feedItem).1, err := some err }) ∨
    (∃ doc err, (recordRun acts feedItem).2 = .ok doc ∧ (fetchRun acts doc).2 = .error err ∧
      IngestFeedItem acts feedItem =
        { attempts := tagged Stage.Record (recordRun acts feedItem).1 ++
            tagged Stage.Fetch (fetchRun acts doc).1, err := some err }) ∨
    (∃ doc err, (recordRun acts feedItem).2 = .ok doc ∧ (fetchRun acts doc).2 = .ok () ∧
      (summarizeRun acts doc).2 = .error err ∧
      IngestFeedItem acts feedItem =
        { attempts := tagged Stage.Record (recordRun acts feedItem).1 ++
            tagged Stage.Fetch (fetchRun acts doc).1 ++
            tagged Stage.Summarize (summarizeRun acts doc).1, err := some err }) ∨
    (∃ doc, (recordRun acts feedItem).2 = .ok doc ∧ (fetchRun acts doc).2 = .ok () ∧
      (summarizeRun acts doc).2 = .ok () ∧
      IngestFeedItem acts feedItem =
        { attempts := tagged Stage.Record (recordRun acts feedItem).1 ++
            tagged Stage.Fetch (fetchRun acts doc).1 ++
            tagged Stage.Summarize (summarizeRun acts doc).1, err := none }) := by
  cases h : (recordRun acts feedItem).2 with
  | error err => exact Or.inl ⟨err, rfl, IngestFeedItem_record_fails acts feedItem err h⟩
  | ok doc =>
    cases h2 : (fetchRun acts doc).2 with
    | error err =>
      exact Or.inr (Or.inl ⟨doc, err, rfl, h2, IngestFeedItem_fetch_fails acts feedItem doc err h h2⟩)
    | ok u =>
      cases h3 : (summarizeRun acts doc).2 with
      | error err =>
        exact Or.inr (Or.inr (Or.inl ⟨doc, err, rfl, h2, h3,
          IngestFeedItem_summarize_fails acts feedItem doc err h h2 h3⟩))
      | ok u2 =>
        exact Or.inr (Or.inr (Or.inr ⟨doc, rfl, h2, h3,
          IngestFeedItem_all_succeed acts feedItem doc h h2 h3⟩))

theorem attemptsOf_tagged (st s1 s2 s3 : Stage) (l1 l2 l3 : List Nat) (e : Option GoError) :
    attemptsOf st { attempts := tagged s1 l1 ++ tagged s2 l2 ++ tagged s3 l3, err := e } =
      (if s1 = st then l1 else []) ++ (if s2 = st then l2 else []) ++
        (if s3 = st then l3 else []) := by
  unfold attemptsOf tagged
  simp only [List.filter_append, List.map_append, attemptsOf_map]

theorem stageIndex_tagged (st : Stage) (l : List Nat) :
    ∀ x ∈ (tagged st l).map (fun a => stageIndex a.1), x = stageIndex st := by
  intro x hx
  simp only [tagged, List.map_map, List.mem_map, Function.comp] at hx
  obtain ⟨_, _, h⟩ := hx
  exact h.symm

theorem stage_order_single (st : Stage) (l : List Nat) :
    ((tagged st l).map (fun a => stageIndex a.1)).Pairwise (fun a b => a ≤ b) := by
  apply List.pairwise_iff_forall_sublist.mpr
  intro a b hab
  have ha := stageIndex_tagged st l a (hab.subset (by simp))
  have hb := stageIndex_tagged st l b (hab.subset (by simp))
  omega

theorem stage_order_tagged (l1 l2 l3 : List Nat) :
    ((tagged Stage.Record l1 ++ tagged Stage.Fetch l2 ++ tagged Stage.Summarize l3).map
      (fun a => stageIndex a.1)).Pairwise (fun a b => a ≤ b) := by
  simp only [List.map_append]
  rw [List.pairwise_append, List.pairwise_append]
  refine ⟨⟨stage_order_single _ _, stage_order_single _ _, ?_⟩, stage_order_single _ _, ?_⟩
  · intro a ha b hb
    have := stageIndex_tagged _ _ a ha
    have := stageIndex_tagged _ _ b hb
    simp only [stageIndex] at *
    omega
  · intro a ha b hb
    have hb2 := stageIndex_tagged _ _ b hb
    rcases List.mem_append.mp ha with h | h
    · have := stageIndex_tagged _ _ a h
      simp only [stageIndex] at *
      omega
    · have := stageIndex_tagged _ _ a h
      simp only [stageIndex] at *
      omega

theorem stageRun_numbers {α : Type} (attempt : Nat → Except GoError α) :
    ∃ len, 1 ≤ len ∧ len ≤ 3 ∧
      (ExecuteActivity ingestActivityOptions attempt).1 = List.range' 1 len :=
  runAttempts_numbers attempt 2 1

theorem stageRun_first_success {α : Type} (attempt : Nat → Except GoError α) (k : Nat) (v : α)
    (h1 : 1 ≤ k) (h3 : k ≤ 3) (h : FirstSuccessAt attempt k v) :
    ExecuteActivity ingestActivityOptions attempt = (List.range' 1 k, .ok v) := by
  obtain ⟨j, rfl⟩ : ∃ j, k = j + 1 := ⟨k - 1, by omega⟩
  have := runAttempts_first_success attempt v 2 1 j (by omega)
    (by rw [Nat.add_comm]; exact h.1)
    (fun i hi => by
      obtain ⟨e, he⟩ := h.2 (1 + i) (by omega) (by omega)
      exact ⟨e, he⟩)
  exact this

theorem stageRun_all_fail {α : Type} (attempt : Nat → Except GoError α)
    (h : ∀ n, 1 ≤ n → n ≤ 3 → ∃ e, attempt n = .error e) :
    ExecuteActivity ingestActivityOptions attempt = ([1, 2, 3], attempt 3) :=
  runAttempts_all_fail attempt 2 1 (fun i hi => h (1 + i) (by omega) (by omega))

theorem FetchHTML_non_ok (w : FetchCollaborators) (dataDir : GoString) (doc : FeedItemDocument)
    (h : ∃ resp, w.Do doc.Link userAgent = .ok resp ∧ resp.StatusCode ≠ 200) :
    ∃ e, FetchHTML w dataDir doc = some e := by
  obtain ⟨resp, h1, h2⟩ := h
  unfold userAgent at h1
  unfold FetchHTML
  cases w.MkdirAll dataDir with
  | some e => exact ⟨e, rfl⟩
  | none =>
    cases w.NewRequest doc.Link with
    | some e => exact ⟨e, rfl⟩
    | none =>
      simp only [h1]
      rw [if_pos h2]
      exact ⟨_, rfl⟩

theorem AddNewFeedItem_duplicate (InsertOne : FeedItemDocument → Except MongoError GoString)
    (now : Nat) (feedItem : FeedItem)
    (h : ∀ doc, ∃ e, InsertOne doc = .error e ∧ e.duplicateKey = true) :
    AddNewFeedItem InsertOne now feedItem =
      (zeroDocument, some (GoError.mk (lit "feed item already exists"))) := by
  unfold AddNewFeedItem
  obtain ⟨e, h1, h2⟩ := h { zeroDocument with
    Link := feedItem.Link, Title := feedItem.Title, CreatedAt := now }
  simp only [h1, h2, if_true]

theorem AddNewFeedItem_error (InsertOne : FeedItemDocument → Except MongoError GoString)
    (now : Nat) (feedItem : FeedItem)
    (h : ∀ doc, ∃ e, InsertOne doc = .error e) :
    ∃ e, (AddNewFeedItem InsertOne now feedItem).2 = some e := by
  unfold AddNewFeedItem
  obtain ⟨e, h1⟩ := h { zeroDocument with
    Link := feedItem.Link, Title := feedItem.Title, CreatedAt := now }
  simp only [h1]
  split
  · exact ⟨_, rfl⟩
  · exact ⟨_, rfl⟩

/-- C11: every run attempts the stages in the order Record, Fetch, Summarize.
Record is always run; Fetch is run exactly when Record succeeded and
Summarize exactly when Fetch succeeded too; a stage that ends in failure gives
its error to the run and no later stage is attempted; the run returns no
error exactly when all three stages succeed.  A content server that answers
every request with a status other than 200 makes the run fail without any
attempt of Summarize. -/
theorem C11_stages_in_fixed_order (acts : Activities) (feedItem : FeedItem) :
    ((IngestFeedItem acts feedItem).attempts.map (fun a => stageIndex a.1)).Pairwise
      (fun a b => a ≤ b) ∧
    attemptsOf Stage.Record (IngestFeedItem acts feedItem) = (recordRun acts feedItem).1 ∧
    (recordRun acts feedItem).1 ≠ [] ∧
    (∀ err, (recordRun acts feedItem).2 = .error err →
      (IngestFeedItem acts feedItem).err = some err ∧
      attemptsOf Stage.Fetch (IngestFeedItem acts feedItem) = [] ∧
      attemptsOf Stage.Summarize (IngestFeedItem acts feedItem) = []) ∧
    (∀ doc, (recordRun acts feedItem).2 = .ok doc →
      attemptsOf Stage.Fetch (IngestFeedItem acts feedItem) = (fetchRun acts doc).1 ∧
      (fetchRun acts doc).1 ≠ [] ∧
      (∀ err, (fetchRun acts doc).2 = .error err →
        (IngestFeedItem acts feedItem).err = some err ∧
        attemptsOf Stage.Summarize (IngestFeedItem acts feedItem) = []) ∧
      ((fetchRun acts doc).2 = .ok () →
        attemptsOf Stage.Summarize (IngestFeedItem acts feedItem) = (summarizeRun acts doc).1 ∧
        (summarizeRun acts doc).1 ≠ [] ∧
        (∀ err, (summarizeRun acts doc).2 = .error err →
          (IngestFeedItem acts feedItem).err = some err) ∧
        ((summarizeRun acts doc).2 = .ok () → (IngestFeedItem acts feedItem).err = none))) ∧
    ((IngestFeedItem acts feedItem).err = none ↔
      ∃ doc, (recordRun acts feedItem).2 = .ok doc ∧ (fetchRun acts doc).2 = .ok () ∧
        (summarizeRun acts doc).2 = .ok ()) ∧
    (∀ (env : Stage → Nat → WorkerEnv) (item : FeedItem),
      (∀ n link, ∃ resp, (env Stage.Fetch n).fetch.Do link userAgent = .ok resp ∧
        resp.StatusCode ≠ 200) →
      attemptsOf Stage.Summarize (IngestFeedItem (workerActivities env) item) = [] ∧
      (IngestFeedItem (workerActivities env) item).err ≠ none) := by
  have hne : ∀ {α : Type} (attempt : Nat → Except GoError α),
      (ExecuteActivity ingestActivityOptions attempt).1 ≠ [] := by
    intro α attempt
    obtain ⟨len, h1, _, h3⟩ := stageRun_numbers attempt
    rw [h3]
    intro h0
    have := congrArg List.length h0
    simp at this
    omega
  have hsingle : ∀ (st s1 : Stage) (l1 : List Nat) (e : Option GoError),
      attemptsOf st { attempts := tagged s1 l1, err := e } = if s1 = st then l1 else [] := by
    intro st s1 l1 e
    have := attemptsOf_tagged st s1 s1 s1 l1 [] [] e
    simpa [tagged] using this
  have hdouble : ∀ (st s1 s2 : Stage) (l1 l2 : List Nat) (e : Option GoError),
      attemptsOf st { attempts := tagged s1 l1 ++ tagged s2 l2, err := e } =
        (if s1 = st then l1 else []) ++ (if s2 = st then l2 else []) := by
    intro st s1 s2 l1 l2 e
    have := attemptsOf_tagged st s1 s2 s2 l1 l2 [] e
    simpa [tagged] using this
  have horder1 : ∀ l1 : List Nat,
      ((tagged Stage.Record l1).map (fun a => stageIndex a.1)).Pairwise (fun a b => a ≤ b) :=
    fun l1 => stage_order_single _ _
  have horder2 : ∀ l1 l2 : List Nat,
      ((tagged Stage.Record l1 ++ tagged Stage.Fetch l2).map
        (fun a => stageIndex a.1)).Pairwise (fun a b => a ≤ b) := by
    intro l1 l2
    have := stage_order_tagged l1 l2 []
    simpa [tagged] using this
  have main : ∀ (acts : Activities) (feedItem : FeedItem),
      ((IngestFeedItem acts feedItem).attempts.map (fun a => stageIndex a.1)).Pairwise
        (fun a b => a ≤ b) ∧
      attemptsOf Stage.Record (IngestFeedItem acts feedItem) = (recordRun acts feedItem).1 ∧
      (∀ err, (recordRun acts feedItem).2 = .error err →
        (IngestFeedItem acts feedItem).err = some err ∧
        attemptsOf Stage.Fetch (IngestFeedItem acts feedItem) = [] ∧
        attemptsOf Stage.Summarize (IngestFeedItem acts feedItem) = []) ∧
      (∀ doc, (recordRun acts feedItem).2 = .ok doc →
        attemptsOf Stage.Fetch (IngestFeedItem acts feedItem) = (fetchRun acts doc).1 ∧
        (∀ err, (fetchRun acts doc).2 = .error err →
          (IngestFeedItem acts feedItem).err = some err ∧
          attemptsOf Stage.Summarize (IngestFeedItem acts feedItem) = []) ∧
        ((fetchRun acts doc).2 = .ok () →
          attemptsOf Stage.Summarize (IngestFeedItem acts feedItem) = (summarizeRun acts doc).1 ∧
          (∀ err, (summarizeRun acts doc).2 = .error err →
            (IngestFeedItem acts feedItem).err = some err) ∧
          ((summarizeRun acts doc).2 = .ok () → (IngestFeedItem acts feedItem).err = none))) ∧
      ((IngestFeedItem acts feedItem).err = none ↔
        ∃ doc, (recordRun acts feedItem).2 = .ok doc ∧ (fetchRun acts doc).2 = .ok () ∧
          (summarizeRun acts doc).2 = .ok ()) := by
    intro acts feedItem
    rcases IngestFeedItem_cases acts feedItem with ⟨err, h1, hr⟩ | ⟨doc, err, h1, h2, hr⟩ |
      ⟨doc, err, h1, h2, h3, hr⟩ | ⟨doc, h1, h2, h3, hr⟩
    · rw [hr]
      refine ⟨horder1 _, by rw [hsingle]; simp, ?_, ?_, ?_⟩
      · intro e he
        rw [h1] at he
        cases he
        refine ⟨rfl, by rw [hsingle]; simp, by rw [hsingle]; simp⟩
      · intro d hd
        rw [h1] at hd
        cases hd
      · constructor
        · intro h; cases h
        · rintro ⟨d, hd, _⟩
          rw [h1] at hd
          cases hd
    · rw [hr]
      refine ⟨horder2 _ _, by rw [hdouble]; simp, ?_, ?_, ?_⟩
      · intro e he
        rw [h1] at he
        cases he
      · intro d hd
        rw [h1] at hd
        cases hd
        refine ⟨by rw [hdouble]; simp, ?_, ?_⟩
        · intro e he
          rw [h2] at he
          cases he
          exact ⟨rfl, by rw [hdouble]; simp⟩
        · intro hok
          rw [h2] at hok
          cases hok
      · constructor
        · intro h; cases h
        · rintro ⟨d, hd, hf, _⟩
          rw [h1] at hd
          cases hd
          rw [h2] at hf
          cases hf
    · rw [hr]
      refine ⟨stage_order_tagged _ _ _, by rw [attemptsOf_tagged]; simp, ?_, ?_, ?_⟩
      · intro e he
        rw [h1] at he
        cases he
      · intro d hd
        rw [h1] at hd
        cases hd
        refine ⟨by rw [attemptsOf_tagged]; simp, ?_, ?_⟩
        · intro e he
          rw [h2] at he
          cases he
        · intro _
          refine ⟨by rw [attemptsOf_tagged]; simp, ?_, ?_⟩
          · intro e he
            rw [h3] at he
            cases he
            rfl
          · intro hok
            rw [h3] at hok
            cases hok
      · constructor
        · intro h; cases h
        · rintro ⟨d, hd, _, hs⟩
          rw [h1] at hd
          cases hd
          rw [h3] at hs
          cases hs
    · rw [hr]
      refine ⟨stage_order_tagged _ _ _, by rw [attemptsOf_tagged]; simp, ?_, ?_, ?_⟩
      · intro e he
        rw [h1] at he
        cases he
      · intro d hd
        rw [h1] at hd
        cases hd
        refine ⟨by rw [attemptsOf_tagged]; simp, ?_, ?_⟩
        · intro e he
          rw [h2] at he
          cases he
        · intro _
          refine ⟨by rw [attemptsOf_tagged]; simp, ?_, ?_⟩
          · intro e he
            rw [h3] at he
            cases he
          · intro _
            rfl
      · exact ⟨fun _ => ⟨doc, h1, h2, h3⟩, fun _ => rfl⟩
  obtain ⟨m1, m2, m3, m4, m5⟩ := main acts feedItem
  refine ⟨m1, m2, hne _, m3, ?_, m5, ?_⟩
  · intro doc hd
    obtain ⟨a, b, c⟩ := m4 doc hd
    refine ⟨a, hne _, b, fun hok => ?_⟩
    obtain ⟨c1, c2, c3⟩ := c hok
    exact ⟨c1, hne _, c2, c3⟩
  · intro env item hresp
    obtain ⟨_, _, n3, n4, _⟩ := main (workerActivities env) item
    have hfail : ∀ doc, ∃ e, (fetchRun (workerActivities env) doc).2 = .error e := by
      intro doc
      unfold fetchRun ExecuteActivity
      apply runAttempts_error
      intro i
      obtain ⟨e, he⟩ := FetchHTML_non_ok (env Stage.Fetch i).fetch (env Stage.Fetch i).dataDir doc
        (hresp i doc.Link)
      exact ⟨e, by simp only [workerActivities, he]; rfl⟩
    cases hrec : (recordRun (workerActivities env) item).2 with
    | error err =>
      obtain ⟨a, _, c⟩ := n3 err hrec
      exact ⟨c, by rw [a]; simp⟩
    | ok doc =>
      obtain ⟨e, he⟩ := hfail doc
      obtain ⟨a, c⟩ := (n4 doc hrec).2.1 e he
      exact ⟨c, by rw [a]; simp⟩

theorem C11_witness :
    attemptsOf Stage.Summarize (IngestFeedItem (workerActivities notFoundEnv) sampleItem) = [] ∧
    (IngestFeedItem (workerActivities notFoundEnv) sampleItem).err ≠ none :=
  (C11_stages_in_fixed_order (workerActivities notFoundEnv) sampleItem).2.2.2.2.2.2
    notFoundEnv sampleItem (fun _ _ => ⟨_, rfl, by decide⟩)

/-- C12: in every run the attempts of each stage are numbered 1, 2, ... in
sequence and there are at most 3 of them, so no stage is attempted a fourth
time.  When each stage first succeeds at an attempt numbered between 1 and 3,
the run returns no error and holds exactly that many attempts of the stage: a
stage that fails twice and succeeds at the third attempt has the attempts 1,
2, 3. -/
theorem C12_retry_budget_of_three (acts : Activities) (feedItem : FeedItem) :
    (∀ st : Stage, ∃ len, len ≤ 3 ∧
      attemptsOf st (IngestFeedItem acts feedItem) = List.range' 1 len) ∧
    (∀ (doc : FeedItemDocument) (k1 k2 k3 : Nat),
      1 ≤ k1 → k1 ≤ 3 → 1 ≤ k2 → k2 ≤ 3 → 1 ≤ k3 → k3 ≤ 3 →
      FirstSuccessAt (fun n => pairResult (acts.AddNewFeedItem n feedItem)) k1 doc →
      FirstSuccessAt (fun n => errorResult (acts.FetchHTML n doc)) k2 () →
      FirstSuccessAt (fun n => errorResult (acts.CreateSummary n doc)) k3 () →
      (IngestFeedItem acts feedItem).err = none ∧
      attemptsOf Stage.Record (IngestFeedItem acts feedItem) = List.range' 1 k1 ∧
      attemptsOf Stage.Fetch (IngestFeedItem acts feedItem) = List.range' 1 k2 ∧
      attemptsOf Stage.Summarize (IngestFeedItem acts feedItem) = List.range' 1 k3) := by
  constructor
  · intro st
    have hnil : ∃ len, len ≤ 3 ∧ ([] : List Nat) = List.range' 1 len := ⟨0, by omega, rfl⟩
    have hrun : ∀ {α : Type} (attempt : Nat → Except GoError α),
        ∃ len, len ≤ 3 ∧ (ExecuteActivity ingestActivityOptions attempt).1 = List.range' 1 len := by
      intro α attempt
      obtain ⟨len, _, h2, h3⟩ := stageRun_numbers attempt
      exact ⟨len, h2, h3⟩
    have hsingle : ∀ (s1 : Stage) (l1 : List Nat) (e : Option GoError),
        attemptsOf st { attempts := tagged s1 l1, err := e } = if s1 = st then l1 else [] := by
      intro s1 l1 e
      have := attemptsOf_tagged st s1 s1 s1 l1 [] [] e
      simpa [tagged] using this
    have hdouble : ∀ (s1 s2 : Stage) (l1 l2 : List Nat) (e : Option GoError),
        attemptsOf st { attempts := tagged s1 l1 ++ tagged s2 l2, err := e } =
          (if s1 = st then l1 else []) ++ (if s2 = st then l2 else []) := by
      intro s1 s2 l1 l2 e
      have := attemptsOf_tagged st s1 s2 s2 l1 l2 [] e
      simpa [tagged] using this
    rcases IngestFeedItem_cases acts feedItem with ⟨err, h1, hr⟩ | ⟨doc, err, h1, h2, hr⟩ |
      ⟨doc, err, h1, h2, h3, hr⟩ | ⟨doc, h1, h2, h3, hr⟩
    · rw [hr, hsingle]
      cases st
      · simpa using hrun _
      · simp
      · simp
    · rw [hr, hdouble]
      cases st
      · simpa using hrun _
      · simpa using hrun _
      · simp
    · rw [hr, attemptsOf_tagged]
      cases st
      · simpa using hrun _
      · simpa using hrun _
      · simpa using hrun _
    · rw [hr, attemptsOf_tagged]
      cases st
      · simpa using hrun _
      · simpa using hrun _
      · simpa using hrun _
  · intro doc k1 k2 k3 a1 a2 b1 b2 c1 c2 f1 f2 f3
    have r1 := stageRun_first_success _ k1 doc a1 a2 f1
    have r2 := stageRun_first_success _ k2 () b1 b2 f2
    have r3 := stageRun_first_success _ k3 () c1 c2 f3
    have hr := IngestFeedItem_all_succeed acts feedItem doc
      (by unfold recordRun; rw [r1]) (by unfold fetchRun; rw [r2])
      (by unfold summarizeRun; rw [r3])
    rw [hr]
    unfold recordRun fetchRun summarizeRun
    rw [r1, r2, r3]
    refine ⟨rfl, ?_, ?_, ?_⟩ <;> rw [attemptsOf_tagged] <;> simp

theorem C12_witness :
    (IngestFeedItem (workerActivities flakyEnv) sampleItem).err = none ∧
    attemptsOf Stage.Record (IngestFeedItem (workerActivities flakyEnv) sampleItem) =
      List.range' 1 3 ∧
    attemptsOf Stage.Fetch (IngestFeedItem (workerActivities flakyEnv) sampleItem) =
      List.range' 1 1 ∧
    attemptsOf Stage.Summarize (IngestFeedItem (workerActivities flakyEnv) sampleItem) =
      List.range' 1 1 :=
  (C12_retry_budget_of_three (workerActivities flakyEnv) sampleItem).2
    { zeroDocument with ID := sampleRecord.ID, Link := sampleItem.Link, Title := sampleItem.Title }
    3 1 1 (by decide) (by decide) (by decide) (by decide) (by decide) (by decide)
    ⟨rfl, fun j h1 h2 => by
      have : j = 1 ∨ j = 2 := by omega
      rcases this with h | h <;> subst h <;> exact ⟨_, rfl⟩⟩
    ⟨rfl, fun j h1 h2 => by omega⟩
    ⟨rfl, fun j h1 h2 => by omega⟩

/-- C13 (as amended): when the insert of the Record stage fails at every
attempt, and with a duplicate-key error at the third, `AddNewFeedItem` answers
the duplicate with the empty document, not with the record the collection
holds, and with the error "feed item already exists"; the engine retries it
as any other error, the run ends in failure after three attempts of Record,
and Fetch is never attempted. -/
theorem C13_duplicate_key_fails_run (env : Stage → Nat → WorkerEnv) (feedItem : FeedItem)
    (hfail : ∀ n, 1 ≤ n → n ≤ 3 → ∀ doc, ∃ e, (env Stage.Record n).InsertOne doc = .error e)
    (hdup : ∀ doc, ∃ e, (env Stage.Record 3).InsertOne doc = .error e ∧ e.duplicateKey = true) :
    AddNewFeedItem (env Stage.Record 3).InsertOne (env Stage.Record 3).now feedItem =
      (zeroDocument, some (GoError.mk (lit "feed item already exists"))) ∧
    (IngestFeedItem (workerActivities env) feedItem).err ≠ none ∧
    (IngestFeedItem (workerActivities env) feedItem).attempts =
      [(Stage.Record, 1), (Stage.Record, 2), (Stage.Record, 3)] ∧
    attemptsOf Stage.Fetch (IngestFeedItem (workerActivities env) feedItem) = [] := by
  have h3 := AddNewFeedItem_duplicate (env Stage.Record 3).InsertOne (env Stage.Record 3).now
    feedItem hdup
  have hall := stageRun_all_fail
    (fun n => pairResult ((workerActivities env).AddNewFeedItem n feedItem))
    (fun n h1 h2 => by
      obtain ⟨e, he⟩ := AddNewFeedItem_error (env Stage.Record n).InsertOne
        (env Stage.Record n).now feedItem (hfail n h1 h2)
      exact ⟨e, by simp only [workerActivities, pairResult, he]⟩)
  have hlast : pairResult ((workerActivities env).AddNewFeedItem 3 feedItem) =
      .error (GoError.mk (lit "feed item already exists")) := by
    simp only [workerActivities, h3, pairResult]
  have hr := IngestFeedItem_record_fails (workerActivities env) feedItem
    (GoError.mk (lit "feed item already exists"))
    (by unfold recordRun; rw [hall]; exact hlast)
  refine ⟨h3, by rw [hr]; exact Option.some_ne_none _, ?_, ?_⟩
  · rw [hr]
    unfold recordRun
    rw [hall]
    rfl
  · rw [hr]
    unfold recordRun
    rw [hall]
    rfl

theorem C13_witness :
    AddNewFeedItem (duplicateEnv Stage.Record 3).InsertOne (duplicateEnv Stage.Record 3).now
        sampleItem =
      (zeroDocument, some (GoError.mk (lit "feed item already exists"))) ∧
    (IngestFeedItem (workerActivities duplicateEnv) sampleItem).err ≠ none ∧
    (IngestFeedItem (workerActivities duplicateEnv) sampleItem).attempts =
      [(Stage.Record, 1), (Stage.Record, 2), (Stage.Record, 3)] ∧
    attemptsOf Stage.Fetch (IngestFeedItem (workerActivities duplicateEnv) sampleItem) = [] :=
  C13_duplicate_key_fails_run duplicateEnv sampleItem
    (fun _ _ _ _ => ⟨_, rfl⟩) (fun _ => ⟨_, rfl, rfl⟩)

/-- C13 fails as stated: with a collection that already holds the link, every
insert fails with a duplicate-key error, and the run does fail: it ends with
an error after three attempts of Record, the duplicate having been retried,
and it never advances to Fetch. -/
theorem C13_counterexample :
    (∀ n doc, ∃ e, (duplicateEnv Stage.Record n).InsertOne doc = .error e ∧
      e.duplicateKey = true) ∧
    (IngestFeedItem (workerActivities duplicateEnv) sampleItem).err ≠ none ∧
    attemptsOf Stage.Record (IngestFeedItem (workerActivities duplicateEnv) sampleItem) =
      [1, 2, 3] ∧
    attemptsOf Stage.Fetch (IngestFeedItem (workerActivities duplicateEnv) sampleItem) = [] := by
  refine ⟨fun _ _ => ⟨_, rfl, rfl⟩, ?_, ?_, ?_⟩
  · decide
  · decide
  · decide

/-! ## The ingester -/

theorem parsedURLs_append (l1 l2 : List IngesterCall) :
    parsedURLs (l1 ++ l2) = parsedURLs l1 ++ parsedURLs l2 := by
  induction l1 with
  | nil => rfl
  | cons c rest ih => cases c <;> simp [parsedURLs, ih]

theorem lookedUp_append (l1 l2 : List IngesterCall) :
    lookedUp (l1 ++ l2) = lookedUp l1 ++ lookedUp l2 := by
  induction l1 with
  | nil => rfl
  | cons c rest ih => cases c <;> simp [lookedUp, ih]

theorem submitted_append (l1 l2 : List IngesterCall) :
    submitted (l1 ++ l2) = submitted l1 ++ submitted l2 := by
  induction l1 with
  | nil => rfl
  | cons c rest ih => cases c <;> simp [submitted, ih]

theorem workflowID_eq (link : GoString) : workflowID link = lit "ingest-feed-item-" ++ link := by
  unfold workflowID
  have h : lit "ingest-feed-item-%s" = lit "ingest-feed-item-" ++ [0x25, 0x73] := by decide
  rw [h, Sprintf_literal _ _ _ (by decide) (by simp), Sprintf_verb]
  simp [Sprintf]

theorem processItem_miss (names : IngesterNames) (o : Outside) (s : IngesterState)
    (feedTitle : GoString) (item : Item) (h : rdbGet o s.cache item.Link = .redisNil) :
    (processItem names o s feedTitle item).calls =
      s.calls ++ [IngesterCall.Get item.Link,
        IngesterCall.Set item.Link (lit "1") (24 * 7 * Hour),
        IngesterCall.ExecuteWorkflow (workflowID item.Link) names.TaskQueueName
          names.IngestFeedItemName { Link := item.Link, Title := item.Title }] ∧
    (processItem names o s feedTitle item).cache =
      rdbSet o s.cache item.Link (lit "1") (24 * 7 * Hour) ∧
    (processItem names o s feedTitle item).accepted =
      match o.startError with
      | some _ => s.accepted
      | none => s.accepted ++ [(workflowID item.Link, { Link := item.Link, Title := item.Title })] := by
  unfold processItem
  simp only [h]
  cases o.startError <;> simp

theorem processItem_no_miss (names : IngesterNames) (o : Outside) (s : IngesterState)
    (feedTitle : GoString) (item : Item) (h : rdbGet o s.cache item.Link ≠ .redisNil) :
    processItem names o s feedTitle item =
      { s with calls := s.calls ++ [IngesterCall.Get item.Link] } := by
  unfold processItem
  cases hg : rdbGet o s.cache item.Link with
  | redisNil => exact absurd hg h
  | failed e => rfl
  | value v => rfl

theorem rdbGet_hit (o : Outside) (cache : List CacheEntry) (key v : GoString)
    (hg : o.getError = none) (h : cacheLookup cache o.now key = some v) :
    rdbGet o cache key = .value v := by
  unfold rdbGet
  simp only [hg, h]

theorem rdbGet_miss (o : Outside) (cache : List CacheEntry) (key : GoString)
    (hg : o.getError = none) (h : cacheLookup cache o.now key = none) :
    rdbGet o cache key = .redisNil := by
  unfold rdbGet
  simp only [hg, h]

theorem cacheLookup_after_set (o : Outside) (cache : List CacheEntry) (key value : GoString)
    (ttl t : Nat) (hs : o.setError = none) (ht : t < o.now + ttl) :
    cacheLookup (rdbSet o cache key value ttl) t key = some value := by
  unfold rdbSet cacheLookup
  simp only [hs, List.find?_cons, decide_True, ht, if_true]

theorem processItem_calls (names : IngesterNames) (o : Outside) (s : IngesterState)
    (feedTitle : GoString) (item : Item) :
    lookedUp (processItem names o s feedTitle item).calls = lookedUp s.calls ++ [item.Link] ∧
    parsedURLs (processItem names o s feedTitle item).calls = parsedURLs s.calls := by
  by_cases h : rdbGet o s.cache item.Link = .redisNil
  · rw [(processItem_miss names o s feedTitle item h).1, lookedUp_append, parsedURLs_append]
    simp [lookedUp, parsedURLs]
  · rw [processItem_no_miss names o s feedTitle item h]
    simp only [lookedUp_append, parsedURLs_append]
    simp [lookedUp, parsedURLs]

theorem processItems_calls (names : IngesterNames) (w : IngesterWorld) (feedTitle : GoString)
    (items : List Item) (s : IngesterState) :
    lookedUp (processItems names w feedTitle items s).calls =
      lookedUp s.calls ++ items.map (fun i => i.Link) ∧
    parsedURLs (processItems names w feedTitle items s).calls = parsedURLs s.calls := by
  induction items generalizing s with
  | nil => simp [processItems]
  | cons item rest ih =>
    rw [processItems]
    obtain ⟨h1, h2⟩ := ih (processItem names (w.outside s.calls.length) s feedTitle item)
    obtain ⟨h3, h4⟩ := processItem_calls names (w.outside s.calls.length) s feedTitle item
    rw [h1, h2, h3, h4]
    simp

theorem processFeedActivity_calls (names : IngesterNames) (w : IngesterWorld)
    (s : IngesterState) (f : Feed) :
    lookedUp (processFeedActivity names w s f).1.calls =
      lookedUp s.calls ++ (itemsOf w f).map (fun i => i.Link) ∧
    parsedURLs (processFeedActivity names w s f).1.calls = parsedURLs s.calls ++ [f.XMLURL] ∧
    (processFeedActivity names w s f).2 = none := by
  unfold processFeedActivity itemsOf
  cases w.ParseURL f.XMLURL with
  | error e =>
    simp only [lookedUp_append, parsedURLs_append]
    simp [lookedUp, parsedURLs]
  | ok feed =>
    simp only
    obtain ⟨h1, h2⟩ := processItems_calls names w feed.Title feed.Items
      { s with calls := s.calls ++ [IngesterCall.ParseURL f.XMLURL] }
    rw [h1, h2]
    simp only [lookedUp_append, parsedURLs_append]
    simp [lookedUp, parsedURLs]

theorem processAllFeeds_calls (names : IngesterNames) (w : IngesterWorld)
    (feedList : List Feed) (s : IngesterState) :
    lookedUp (processAllFeeds names w feedList s).calls =
      lookedUp s.calls ++ (feedList.flatMap (itemsOf w)).map (fun i => i.Link) ∧
    parsedURLs (processAllFeeds names w feedList s).calls =
      parsedURLs s.calls ++ feedList.map (fun f => f.XMLURL) := by
  induction feedList generalizing s with
  | nil => simp [processAllFeeds]
  | cons f rest ih =>
    rw [processAllFeeds]
    obtain ⟨h1, h2⟩ := ih (processFeedActivity names w s f).1
    obtain ⟨h3, h4, _⟩ := processFeedActivity_calls names w s f
    rw [h1, h2, h3, h4]
    simp

/-- C14 (as amended): for every item whose lookup reports a miss, the run is
submitted under the workflow ID "ingest-feed-item-" followed by the item's
link, with the item's link and title; two links give the same ID exactly when
they are the same link. -/
theorem C14_workflow_id (names : IngesterNames) (o : Outside) (s : IngesterState)
    (feedTitle : GoString) (item : Item) (h : rdbGet o s.cache item.Link = .redisNil) :
    submitted (processItem names o s feedTitle item).calls =
      submitted s.calls ++
        [(lit "ingest-feed-item-" ++ item.Link, { Link := item.Link, Title := item.Title })] ∧
    (∀ link1 link2 : GoString, workflowID link1 = workflowID link2 ↔ link1 = link2) := by
  constructor
  · rw [(processItem_miss names o s feedTitle item h).1, submitted_append, workflowID_eq]
    rfl
  · intro link1 link2
    rw [workflowID_eq, workflowID_eq]
    exact ⟨fun h => List.append_cancel_left h, fun h => by rw [h]⟩

theorem C14_witness :
    submitted (processItem sampleNames (calmAt 0) emptyState [] itemA).calls =
      submitted emptyState.calls ++
        [(lit "ingest-feed-item-" ++ itemA.Link, { Link := itemA.Link, Title := itemA.Title })] ∧
    (∀ link1 link2 : GoString, workflowID link1 = workflowID link2 ↔ link1 = link2) :=
  C14_workflow_id sampleNames (calmAt 0) emptyState [] itemA rfl

/-- C14 fails as stated: the item with link "https://x/a", new to the cache, is
submitted under the ID "ingest-feed-item-https://x/a", which is not "ingest-"
followed by the link. -/
theorem C14_counterexample :
    rdbGet (calmAt 0) emptyState.cache itemA.Link = .redisNil ∧
    submitted (processItem sampleNames (calmAt 0) emptyState [] itemA).calls =
      [(lit "ingest-feed-item-https://x/a", { Link := itemA.Link, Title := itemA.Title })] ∧
    lit "ingest-feed-item-https://x/a" ≠ lit "ingest-" ++ itemA.Link := by
  refine ⟨rfl, by decide, by decide⟩

/-- C15: `processItem` looks the link up first.  On a miss it sets the link in
the cache with the value "1" and an expiration of 7 days, and then submits one
run with the item's link and title; the cache then holds the entry unless the
command failed.  When the lookup finds the link, or fails with another error,
it makes no further call: the cache is unchanged and no run is submitted.  So
a run is submitted exactly on a miss. -/
theorem C15_admission_iff_miss (names : IngesterNames) (o : Outside) (s : IngesterState)
    (feedTitle : GoString) (item : Item) :
    (rdbGet o s.cache item.Link = .redisNil →
      (processItem names o s feedTitle item).calls =
        s.calls ++ [IngesterCall.Get item.Link,
          IngesterCall.Set item.Link (lit "1") (7 * (24 * 3600 * 1000000000)),
          IngesterCall.ExecuteWorkflow (workflowID item.Link) names.TaskQueueName
            names.IngestFeedItemName { Link := item.Link, Title := item.Title }] ∧
      (o.setError = none →
        (processItem names o s feedTitle item).cache =
          { key := item.Link, value := lit "1",
            expiresAt := o.now + 7 * (24 * 3600 * 1000000000) } :: s.cache) ∧
      submitted (processItem names o s feedTitle item).calls =
        submitted s.calls ++
          [(workflowID item.Link, { Link := item.Link, Title := item.Title })]) ∧
    (rdbGet o s.cache item.Link ≠ .redisNil →
      (processItem names o s feedTitle item).calls = s.calls ++ [IngesterCall.Get item.Link] ∧
      (processItem names o s feedTitle item).cache = s.cache ∧
      (processItem names o s feedTitle item).accepted = s.accepted ∧
      submitted (processItem names o s feedTitle item).calls = submitted s.calls) ∧
    (submitted (processItem names o s feedTitle item).calls ≠ submitted s.calls ↔
      rdbGet o s.cache item.Link = .redisNil) := by
  have httl : 24 * 7 * Hour = 7 * (24 * 3600 * 1000000000) := by decide
  have hmiss : rdbGet o s.cache item.Link = .redisNil →
      submitted (processItem names o s feedTitle item).calls =
        submitted s.calls ++
          [(workflowID item.Link, { Link := item.Link, Title := item.Title })] := by
    intro h
    rw [(processItem_miss names o s feedTitle item h).1, submitted_append]
    rfl
  have hother : rdbGet o s.cache item.Link ≠ .redisNil →
      submitted (processItem names o s feedTitle item).calls = submitted s.calls := by
    intro h
    rw [processItem_no_miss names o s feedTitle item h]
    simp only [submitted_append]
    simp [submitted]
  refine ⟨fun h => ⟨?_, ?_, hmiss h⟩, fun h => ⟨?_, ?_, ?_, hother h⟩, ?_⟩
  · rw [(processItem_miss names o s feedTitle item h).1, httl]
  · intro hs
    rw [(processItem_miss names o s feedTitle item h).2.1, httl]
    unfold rdbSet
    simp only [hs]
  · rw [processItem_no_miss names o s feedTitle item h]
  · rw [processItem_no_miss names o s feedTitle item h]
  · rw [processItem_no_miss names o s feedTitle item h]
  · constructor
    · intro hne
      by_contra h
      exact hne (hother h)
    · intro h hq
      rw [hmiss h] at hq
      have := congrArg List.length hq
      simp at this

theorem C15_witness :
    (processItem sampleNames (calmAt 0) emptyState [] itemA).calls =
      emptyState.calls ++ [IngesterCall.Get itemA.Link,
        IngesterCall.Set itemA.Link (lit "1") (7 * (24 * 3600 * 1000000000)),
        IngesterCall.ExecuteWorkflow (workflowID itemA.Link) sampleNames.TaskQueueName
          sampleNames.IngestFeedItemName { Link := itemA.Link, Title := itemA.Title }] ∧
    ((calmAt 0).setError = none →
      (processItem sampleNames (calmAt 0) emptyState [] itemA).cache =
        { key := itemA.Link, value := lit "1",
          expiresAt := (calmAt 0).now + 7 * (24 * 3600 * 1000000000) } :: emptyState.cache) ∧
    submitted (processItem sampleNames (calmAt 0) emptyState [] itemA).calls =
      submitted emptyState.calls ++
        [(workflowID itemA.Link, { Link := itemA.Link, Title := itemA.Title })] :=
  (C15_admission_iff_miss sampleNames (calmAt 0) emptyState [] itemA).1 rfl

/-- C16: over a cache that works (the lookups and the set do not fail), when
an item is new to the cache and a second item with the same link is handed in
before 7 days have passed, the first call submits exactly one run, which is
started when the orchestrator accepts it, and the second call only looks the
link up: it submits no run and leaves the cache and the started runs as they
were. -/
theorem C16_second_submission_is_noop (names : IngesterNames) (o1 o2 : Outside)
    (s : IngesterState) (title1 title2 : GoString) (item1 item2 : Item)
    (hlink : item2.Link = item1.Link)
    (hnew : cacheLookup s.cache o1.now item1.Link = none)
    (hg1 : o1.getError = none) (hs1 : o1.setError = none) (hg2 : o2.getError = none)
    (hwin : o2.now < o1.now + 7 * (24 * 3600 * 1000000000)) :
    submitted (processItem names o1 s title1 item1).calls =
      submitted s.calls ++
        [(workflowID item1.Link, { Link := item1.Link, Title := item1.Title })] ∧
    (o1.startError = none →
      (processItem names o1 s title1 item1).accepted =
        s.accepted ++ [(workflowID item1.Link, { Link := item1.Link, Title := item1.Title })]) ∧
    processItem names o2 (processItem names o1 s title1 item1) title2 item2 =
      { processItem names o1 s title1 item1 with
        calls := (processItem names o1 s title1 item1).calls ++ [IngesterCall.Get item2.Link] } ∧
    submitted (processItem names o2 (processItem names o1 s title1 item1) title2 item2).calls =
      submitted (processItem names o1 s title1 item1).calls := by
  have httl : 24 * 7 * Hour = 7 * (24 * 3600 * 1000000000) := by decide
  have hmiss := rdbGet_miss o1 s.cache item1.Link hg1 hnew
  obtain ⟨c1, c2, c3⟩ := processItem_miss names o1 s title1 item1 hmiss
  have hseen : rdbGet o2 (processItem names o1 s title1 item1).cache item2.Link ≠ .redisNil := by
    rw [c2, hlink, rdbGet_hit o2 _ item1.Link (lit "1") hg2
      (cacheLookup_after_set o1 s.cache item1.Link (lit "1") _ o2.now hs1 (by rw [httl]; exact hwin))]
    intro h
    cases h
  have h2 := processItem_no_miss names o2 _ title2 item2 hseen
  refine ⟨?_, ?_, h2, ?_⟩
  · rw [c1, submitted_append]
    rfl
  · intro hst
    rw [c3, hst]
  · rw [h2]
    simp only [submitted_append]
    simp [submitted]

theorem C16_witness :
    submitted (processItem sampleNames (calmAt 0) emptyState [] itemA).calls =
      submitted emptyState.calls ++
        [(workflowID itemA.Link, { Link := itemA.Link, Title := itemA.Title })] ∧
    ((calmAt 0).startError = none →
      (processItem sampleNames (calmAt 0) emptyState [] itemA).accepted =
        emptyState.accepted ++
          [(workflowID itemA.Link, { Link := itemA.Link, Title := itemA.Title })]) ∧
    processItem sampleNames (calmAt Hour) (processItem sampleNames (calmAt 0) emptyState [] itemA)
        [] itemA =
      { processItem sampleNames (calmAt 0) emptyState [] itemA with
        calls := (processItem sampleNames (calmAt 0) emptyState [] itemA).calls ++
          [IngesterCall.Get itemA.Link] } ∧
    submitted (processItem sampleNames (calmAt Hour)
        (processItem sampleNames (calmAt 0) emptyState [] itemA) [] itemA).calls =
      submitted (processItem sampleNames (calmAt 0) emptyState [] itemA).calls :=
  C16_second_submission_is_noop sampleNames (calmAt 0) (calmAt Hour) emptyState [] [] itemA itemA
    rfl rfl rfl rfl rfl (by decide)

/-- C17: one cycle calls the feed parser once for every configured source, in
list order, whatever fails; it hands to `processItem`, in order, every item of
every source that was fetched and parsed, and nothing for a source that
failed; `processFeedActivity` never returns an error, and on a source that
fails it does nothing but the call of the parser. -/
theorem C17_cycle_visits_every_source (names : IngesterNames) (w : IngesterWorld)
    (feedList : List Feed) (s : IngesterState) :
    parsedURLs (processAllFeeds names w feedList s).calls =
      parsedURLs s.calls ++ feedList.map (fun f => f.XMLURL) ∧
    lookedUp (processAllFeeds names w feedList s).calls =
      lookedUp s.calls ++ (feedList.flatMap (itemsOf w)).map (fun i => i.Link) ∧
    (∀ (st : IngesterState) (f : Feed), (processFeedActivity names w st f).2 = none) ∧
    (∀ (st : IngesterState) (f : Feed) (e : GoError), w.ParseURL f.XMLURL = .error e →
      itemsOf w f = [] ∧
      (processFeedActivity names w st f).1 =
        { st with calls := st.calls ++ [IngesterCall.ParseURL f.XMLURL] }) ∧
    (∀ (f : Feed) (feed : ParsedFeed), w.ParseURL f.XMLURL = .ok feed →
      itemsOf w f = feed.Items) := by
  obtain ⟨h1, h2⟩ := processAllFeeds_calls names w feedList s
  refine ⟨h2, h1, fun st f => (processFeedActivity_calls names w st f).2.2, ?_, ?_⟩
  · intro st f e he
    unfold itemsOf processFeedActivity
    simp only [he, and_self]
  · intro f feed hf
    unfold itemsOf
    simp only [hf]

theorem C17_witness :
    itemsOf sampleIngesterWorld brokenFeed = [] ∧
    (processFeedActivity sampleNames sampleIngesterWorld emptyState brokenFeed).1 =
      { emptyState with
        calls := emptyState.calls ++ [IngesterCall.ParseURL brokenFeed.XMLURL] } :=
  (C17_cycle_visits_every_source sampleNames sampleIngesterWorld [brokenFeed, workingFeed]
    emptyState).2.2.2.1 emptyState brokenFeed
    (GoError.mk (lit "http error: 503 Service Unavailable"))
    (by
      simp only [sampleIngesterWorld]
      rw [if_neg (by decide)])

/-- C18: over a cache that works, when an item is new to the cache and the
orchestrator refuses its submission with an error, `processItem` has set the
link before submitting and does not take it back: no run is started, the
link is still found in the cache at any time within 7 days, and a later call
for the same link within that time only looks the link up and submits no
run. -/
theorem C18_admission_not_atomic (names : IngesterNames) (o1 o2 : Outside)
    (s : IngesterState) (title1 title2 : GoString) (item1 item2 : Item) (e : GoError)
    (hlink : item2.Link = item1.Link)
    (hnew : cacheLookup s.cache o1.now item1.Link = none)
    (hg1 : o1.getError = none) (hs1 : o1.setError = none) (hstart : o1.startError = some e)
    (hg2 : o2.getError = none)
    (hwin : o2.now < o1.now + 7 * (24 * 3600 * 1000000000)) :
    (processItem names o1 s title1 item1).calls =
      s.calls ++ [IngesterCall.Get item1.Link,
        IngesterCall.Set item1.Link (lit "1") (7 * (24 * 3600 * 1000000000)),
        IngesterCall.ExecuteWorkflow (workflowID item1.Link) names.TaskQueueName
          names.IngestFeedItemName { Link := item1.Link, Title := item1.Title }] ∧
    (processItem names o1 s title1 item1).accepted = s.accepted ∧
    cacheLookup (processItem names o1 s title1 item1).cache o2.now item1.Link = some (lit "1") ∧
    submitted (processItem names o2 (processItem names o1 s title1 item1) title2 item2).calls =
      submitted (processItem names o1 s title1 item1).calls ∧
    (processItem names o2 (processItem names o1 s title1 item1) title2 item2).accepted =
      s.accepted := by
  have httl : 24 * 7 * Hour = 7 * (24 * 3600 * 1000000000) := by decide
  have hmiss := rdbGet_miss o1 s.cache item1.Link hg1 hnew
  obtain ⟨c1, c2, c3⟩ := processItem_miss names o1 s title1 item1 hmiss
  have hlook : cacheLookup (processItem names o1 s title1 item1).cache o2.now item1.Link =
      some (lit "1") := by
    rw [c2]
    exact cacheLookup_after_set o1 s.cache item1.Link (lit "1") _ o2.now hs1
      (by rw [httl]; exact hwin)
  have hseen : rdbGet o2 (processItem names o1 s title1 item1).cache item2.Link ≠ .redisNil := by
    rw [hlink, rdbGet_hit o2 _ item1.Link (lit "1") hg2 hlook]
    intro h
    cases h
  have h2 := processItem_no_miss names o2 _ title2 item2 hseen
  have hacc : (processItem names o1 s title1 item1).accepted = s.accepted := by
    rw [c3, hstart]
  refine ⟨by rw [c1, httl], hacc, hlook, ?_, ?_⟩
  · rw [h2]
    simp only [submitted_append]
    simp [submitted]
  · rw [h2]
    exact hacc

theorem C18_witness :
    (processItem sampleNames (refusedAt 0) emptyState [] itemA).calls =
      emptyState.calls ++ [IngesterCall.Get itemA.Link,
        IngesterCall.Set itemA.Link (lit "1") (7 * (24 * 3600 * 1000000000)),
        IngesterCall.ExecuteWorkflow (workflowID itemA.Link) sampleNames.TaskQueueName
          sampleNames.IngestFeedItemName { Link := itemA.Link, Title := itemA.Title }] ∧
    (processItem sampleNames (refusedAt 0) emptyState [] itemA).accepted = emptyState.accepted ∧
    cacheLookup (processItem sampleNames (refusedAt 0) emptyState [] itemA).cache
      (calmAt Hour).now itemA.Link = some (lit "1") ∧
    submitted (processItem sampleNames (calmAt Hour)
        (processItem sampleNames (refusedAt 0) emptyState [] itemA) [] itemA).calls =
      submitted (processItem sampleNames (refusedAt 0) emptyState [] itemA).calls ∧
    (processItem sampleNames (calmAt Hour)
        (processItem sampleNames (refusedAt 0) emptyState [] itemA) [] itemA).accepted =
      emptyState.accepted :=
  C18_admission_not_atomic sampleNames (refusedAt 0) (calmAt Hour) emptyState [] [] itemA itemA
    (GoError.mk (lit "temporal unavailable")) rfl rfl rfl rfl rfl rfl (by decide)

end FeedsAggregator
